import Mathlib

/-!
# Verification of the Betterment matching & team-formation engine

A shallow embedding, in Lean 4, of the core matching and team-formation code
of the Betterment repository:

* `src/cogs/teams/utils/timezone_utils.py`   (`TimezoneProcessor`)
* `src/cogs/teams/services/category_matcher.py` (`CategoryMatcher`)
* `src/cogs/teams/services/scoring_engine.py`   (`TeamScoringEngine`, embedded
  where its arithmetic is claim-relevant, abstracted as oracle parameters where
  it delegates to the external AI similarity capability)
* `src/cogs/teams/services/team_formation_service.py` (`TeamFormationService`)
* `src/cogs/teams/models/team.py`            (`Team`, `TeamMember`)

Python floats are modelled as `Rat` (exact arithmetic at the same order of
operations); Python dicts are modelled as insertion-ordered association lists;
the awaited external AI calls are modelled as oracle function parameters.
-/

namespace Betterment

/-! ## Timezone utilities (`timezone_utils.py`) -/

/-- ASCII whitespace, as recognised by Python's `str.strip` and the regex
class `\s` (for ASCII input). -/
def isWsChar (c : Char) : Bool :=
  c == ' ' || c == '\x0b' || c == '\t' || c == '\x0c' || c == '\n' || c == '\x0d'

/-- Python `str.strip()`: drop whitespace from both ends. -/
def stripChars (cs : List Char) : List Char :=
  ((cs.dropWhile isWsChar).reverse.dropWhile isWsChar).reverse

/-- Python `str.upper()`, character-wise (ASCII). -/
def upperChars (cs : List Char) : List Char := cs.map Char.toUpper

/-- Numeric value of a decimal digit character. -/
def digitVal (c : Char) : Nat := c.toNat - '0'.toNat

/-- `TimezoneProcessor.TIMEZONE_MAP`: the fixed abbreviation table. -/
def timezoneMap : List (List Char × Rat) :=
  [ ("EST".toList, -5), ("EDT".toList, -4), ("CST".toList, -6), ("CDT".toList, -5),
    ("MST".toList, -7), ("MDT".toList, -6), ("PST".toList, -8), ("PDT".toList, -7),
    ("AKST".toList, -9), ("AKDT".toList, -8), ("HST".toList, -10), ("GMT".toList, 0),
    ("UTC".toList, 0), ("CET".toList, 1), ("CEST".toList, 2), ("EET".toList, 2),
    ("EEST".toList, 3), ("IST".toList, (11 : Rat)/2), ("JST".toList, 9),
    ("AEST".toList, 10), ("AEDT".toList, 11) ]

/-- Dictionary lookup by key equality. -/
def findByKey : List (List Char × Rat) → List Char → Option Rat
  | [], _ => none
  | (k, v) :: rest, cs => if cs = k then some v else findByKey rest cs

/-- Lookup in the abbreviation table (Python `tz_upper in self.TIMEZONE_MAP`). -/
def tzMapLookup (cs : List Char) : Option Rat :=
  findByKey timezoneMap cs

/-- The optional minutes group `(?::(\d{2}))?`: `':'` followed by exactly two
digits, skipped (`none`) otherwise; trailing characters ignored. -/
def minsScan : List Char → Option Nat
  | c :: m1 :: m2 :: _ =>
      if c == ':' && m1.isDigit && m2.isDigit then some (10 * digitVal m1 + digitVal m2)
      else none
  | _ => none

/-- The `([+-])(\d{1,2})(?::(\d{2}))?` tail of the offset regex, after the
sign has been consumed.  `pos` is `true` for `'+'`.  The one-or-two digit
hours group is greedy; trailing characters are ignored (`re.match` anchors
only at the start). -/
def parseAfterSign (pos : Bool) (cs : List Char) : Option Rat :=
  match cs with
  | [] => none
  | d1 :: rest =>
    if d1.isDigit then
      let hr : Nat × List Char :=
        match rest with
        | d2 :: rest2 => if d2.isDigit then (10 * digitVal d1 + digitVal d2, rest2)
                         else (digitVal d1, d2 :: rest2)
        | [] => (digitVal d1, [])
      let offset : Rat :=
        (hr.1 : Rat) + (match minsScan hr.2 with | some m => (m : Rat) / 60 | none => 0)
      some (if pos then offset else -offset)
    else none

/-- The `([+-])…` part: a mandatory sign. -/
def parseSigned (cs : List Char) : Option Rat :=
  match cs with
  | '+' :: rest => parseAfterSign true rest
  | '-' :: rest => parseAfterSign false rest
  | _ => none

/-- The `\s?([+-])…` part: one optional whitespace character, then the sign. -/
def parseOffsetBody (cs : List Char) : Option Rat :=
  match cs with
  | c :: rest => if isWsChar c then parseSigned rest else parseSigned cs
  | [] => none

/-- `re.match(r"(?:UTC|GMT)\s?([+-])(\d{1,2})(?::(\d{2}))?", tz_upper)`:
anchored at the start of the (uppercased, stripped) input, trailing characters
permitted. -/
def matchOffsetAtStart (cs : List Char) : Option Rat :=
  match cs with
  | a :: b :: c :: rest =>
      if (a == 'U' && b == 'T' && c == 'C') || (a == 'G' && b == 'M' && c == 'T') then
        parseOffsetBody rest
      else none
  | _ => none

/-- `TimezoneProcessor.parse_to_utc_offset`.  `none` as input models a
non-string value (`isinstance` guard); the result `none` models Python
`None`. -/
def parse_to_utc_offset (s : Option String) : Option Rat :=
  match s with
  | none => none
  | some str =>
      let t := stripChars (upperChars str.toList)
      match tzMapLookup t with
      | some v => some v
      | none => matchOffsetAtStart t

/-- `TimezoneProcessor.calculate_compatibility`: linear decay over the
hour difference, zero from 9 hours onward, zero if either offset is null. -/
def calculate_compatibility (o1 o2 : Option Rat) : Rat :=
  match o1, o2 with
  | some a, some b => max 0 (1 - |a - b| / 9)
  | _, _ => 0

/-! ## Category matcher (`category_matcher.py`)

`CategoryMatcher` is built from `base_domain_keywords`, a static two-level
taxonomy (domain → sub-category → keyword list).  The taxonomy data file is
not part of the sources under verification, so the matcher is embedded
parametrically over an arbitrary taxonomy value. -/

/-- A category taxonomy: domains, each with sub-categories, each with a list
of keyword strings (the shape of `base_domain_keywords`). -/
abbrev Taxonomy := List (String × List (String × List String))

/-- Python `str.lower()`, character-wise (ASCII). -/
def lowerChars (cs : List Char) : List Char := cs.map Char.toLower

/-- All `(lowercased keyword, "domain:subdomain")` occurrences of the
taxonomy, in iteration order, with multiplicity — the stream of updates
performed by `CategoryMatcher._process_keywords`' first pass. -/
def taxTriples (tax : Taxonomy) : List (List Char × String) :=
  tax.flatMap (fun d => d.2.flatMap (fun s => s.2.map
    (fun kw => (lowerChars kw.toList, d.1 ++ ":" ++ s.1))))

/-- `keyword_category_counts[kw]`: one increment per occurrence of the
(lowercased) keyword in the taxonomy. -/
def kwCount (tax : Taxonomy) (kw : List Char) : Nat :=
  (taxTriples tax).countP (fun p => p.1 == kw)

/-- `self.keyword_map[kw]`: the set of `"domain:subdomain"` strings the
keyword maps to (a Python `set`, modelled as a duplicate-free list in
first-occurrence order). -/
def kwCategories (tax : Taxonomy) (kw : List Char) : List String :=
  (((taxTriples tax).filter (fun p => p.1 == kw)).map (fun p => p.2)).dedup

/-- `self.specificity_scores[kw] = 1.0 / count` (second pass of
`_process_keywords`).  For a keyword absent from the taxonomy the Python dict
has no entry and lookups default to `0`; `Rat` division by zero is `0`, which
coincides. -/
def specScore (tax : Taxonomy) (kw : List Char) : Rat :=
  1 / (kwCount tax kw : Rat)

/-- `self.keyword_map.keys()`, in insertion order. -/
def knownKeywords (tax : Taxonomy) : List (List Char) :=
  ((taxTriples tax).map (fun p => p.1)).dedup

/-- The regex word-character class `\w` (ASCII): letters, digits, underscore. -/
def isWordChar (c : Char) : Bool := c.isAlphanum || c == '_'

/-- Whether the character at position `p` of `text` exists and is a word
character (positions past the end count as non-word). -/
def wordAt (text : List Char) (p : Nat) : Bool :=
  match text.drop p with
  | c :: _ => isWordChar c
  | [] => false

/-- The regex `\b` assertion at position `p`: a word character on exactly one
side (the ends of the string count as non-word). -/
def boundaryAt (text : List Char) (p : Nat) : Bool :=
  (if p = 0 then false else wordAt text (p - 1)) != wordAt text p

/-- `re.search(r'\b' + re.escape(kw) + r'\b', text)`: some occurrence of the
literal keyword delimited by word boundaries on both sides. -/
def hasWordOccurrence (kw text : List Char) : Bool :=
  (List.range (text.length + 1)).any (fun i =>
    ((text.drop i).take kw.length == kw) && boundaryAt text i
      && boundaryAt text (i + kw.length))

/-- `category_scores[cat] += v` on a `defaultdict(float)`: update in place if
the key exists, append a fresh entry otherwise. -/
def ratAdd (k : String) (v : Rat) : List (String × Rat) → List (String × Rat)
  | [] => [(k, v)]
  | (k', v') :: rest => if k' = k then (k', v' + v) :: rest else (k', v') :: ratAdd k v rest

/-- `CategoryMatcher.get_scored_categories`.  `none` models a non-string
input.  Returns the accumulated per-category score dictionary. -/
def get_scored_categories (tax : Taxonomy) (text : Option String) : List (String × Rat) :=
  match text with
  | none => []
  | some t =>
      if t = "" then []
      else
        let textLower := lowerChars t.toList
        let matched := (knownKeywords tax).filter (fun kw => hasWordOccurrence kw textLower)
        matched.foldl (fun d kw =>
          (kwCategories tax kw).foldl (fun d c => ratAdd c (specScore tax kw) d) d) []

/-- Reading a score off the result dictionary (absent categories score 0). -/
def scoreOf : List (String × Rat) → String → Rat
  | [], _ => 0
  | (k, v) :: rest, cat => if k = cat then v else scoreOf rest cat

/-! ## Categorical score (`scoring_engine.py`, `_calculate_categorical_score`) -/

/-- `cat.split(':')[0]`: the domain part of a category string. -/
def domainOf (cat : String) : String :=
  String.mk (cat.toList.takeWhile (fun c => !(c == ':')))

/-- `TeamScoringEngine._calculate_categorical_score`: a 60/40 weighted blend
of sub-category and domain overlap, with `min` cardinality denominators. -/
def calculate_categorical_score (c1 c2 : Finset String) : Rat :=
  if c1 = ∅ ∨ c2 = ∅ then 0
  else
    let d1 := c1.image domainOf
    let d2 := c2.image domainOf
    let sharedSub : Rat := ((c1 ∩ c2).card : Rat) / ((min c1.card c2.card : Nat) : Rat)
    let sharedDom : Rat := ((d1 ∩ d2).card : Rat) / ((min d1.card d2.card : Nat) : Rat)
    (6 / 10) * sharedSub + (4 / 10) * sharedDom

/-! ## Data model (`models/team.py`) -/

/-- The `profile_data` mapping carried by each profile. -/
structure ProfileData where
  timezone : Option String := none
  goals : List String := []
  habits : List String := []
  category : Option (List (String × List String)) := none
deriving Repr, DecidableEq, Inhabited

/-- `TeamMember` (a dataclass). -/
structure TeamMember where
  user_id : String
  username : String := ""
  display_name : String := ""
  role_title : String := "Unregistered"
  profile_data : ProfileData := {}
deriving Repr, DecidableEq, Inhabited

/-- `TeamMember.is_leader`. -/
def TeamMember.is_leader (m : TeamMember) : Bool := m.role_title == "Team Leader"

/-- `Team` (a dataclass).  `members` is a Python dict `user_id → TeamMember`,
modelled as an insertion-ordered association list. -/
structure Team where
  guild_id : Int := 0
  team_role : String
  channel_name : String
  members : List (String × TeamMember)
deriving Repr, DecidableEq, Inhabited

/-- The member objects of a team, in dict order. -/
def Team.memberList (t : Team) : List TeamMember := t.members.map (fun p => p.2)

/-- `Team.get_leaders`. -/
def Team.get_leaders (t : Team) : List TeamMember :=
  t.memberList.filter (fun m => m.is_leader)

/-- `Team.get_leader_count`. -/
def Team.get_leader_count (t : Team) : Nat :=
  (t.memberList.filter (fun m => m.is_leader)).length

/-! ## Python dict/list helpers -/

/-- `d[k] = v` on a Python dict: overwrite in place if present, append
otherwise. -/
def dictInsert (k : String) (v : α) : List (String × α) → List (String × α)
  | [] => [(k, v)]
  | (k', v') :: rest => if k' = k then (k, v) :: rest else (k', v') :: dictInsert k v rest

/-- `{m.user_id: m for m in ms}`. -/
def dictOfMembers (ms : List TeamMember) : List (String × TeamMember) :=
  ms.foldl (fun d m => dictInsert m.user_id m d) []

/-- `d[k]` with a fallback (used only at keys known to be present). -/
def lookupD (d : List (String × α)) (k : String) (v₀ : α) : α :=
  match d.lookup k with
  | some v => v
  | none => v₀

/-- `defaultdict(list)` append: `d[k].append(m)`, creating `[m]` at a fresh
key. -/
def appendToKey (k : String) (m : TeamMember) :
    List (String × List TeamMember) → List (String × List TeamMember)
  | [] => [(k, [m])]
  | (k', ms) :: rest =>
      if k' = k then (k', ms ++ [m]) :: rest else (k', ms) :: appendToKey k m rest

/-- Python list slicing `xs[:k]` for a possibly negative `k`. -/
def pyTake (k : Int) (xs : List α) : List α :=
  if 0 ≤ k then xs.take k.toNat else xs.take ((xs.length : Int) + k).toNat

/-- Python list slicing `xs[k:]` for a possibly negative `k`. -/
def pyDrop (k : Int) (xs : List α) : List α :=
  if 0 ≤ k then xs.drop k.toNat else xs.drop ((xs.length : Int) + k).toNat

/-- Insert into a descending-sorted list, after every element of
greater-or-equal key (so that earlier elements win ties). -/
def insertDescBy (key : α → Rat) (x : α) : List α → List α
  | [] => [x]
  | y :: ys => if key x ≤ key y then y :: insertDescBy key x ys else x :: y :: ys

/-- Python `sorted(xs, key=key, reverse=True)`: the unique stable descending
order. -/
def sortDescBy (key : α → Rat) : List α → List α
  | [] => []
  | x :: xs => insertDescBy key x (sortDescBy key xs)

/-- Python `max(xs, key=key)` (first maximum wins; `none` on `[]`), for an
arbitrary strict comparison `gt` on keys. -/
def firstMaxBy (gt : β → β → Bool) (key : α → β) : List α → Option α
  | [] => none
  | x :: xs => some (xs.foldl (fun best y => if gt (key y) (key best) then y else best) x)

/-- Python `>` on 2-tuples of numbers: lexicographic. -/
def lexGt2 (a b : Rat × Int) : Bool := a.1 > b.1 || (a.1 == b.1 && a.2 > b.2)

/-- Python `>` on 3-tuples of numbers: lexicographic. -/
def lexGt3 (a b : Rat × Rat × Int) : Bool :=
  a.1 > b.1 || (a.1 == b.1 && lexGt2 a.2 b.2)

/-! ## Scoring engine (`scoring_engine.py`) -/

/-- The scoring primitives the formation pipeline consumes.

`memberCats` abstracts `TeamScoringEngine.get_member_categories` (structured
categories or the CategoryMatcher fallback over goals/habits — its internals
depend on the taxonomy data file, which is outside the verified sources, and
no claim constrains them).

`semCompat` abstracts the awaited
`TeamScoringEngine.calculate_semantic_compatibility`, whose value comes from
the external AI embedding-similarity capability (spec §6). -/
structure Scorer where
  memberCats : ProfileData → Finset String
  semCompat : ProfileData → ProfileData → Rat

/-- The result dictionary of `calculate_member_team_fit`. -/
structure FitScores where
  tz_score : Rat
  cat_score : Rat
deriving Repr, DecidableEq

/-- `TeamScoringEngine.calculate_member_team_fit`: average timezone and
category compatibility between a member and each of the given team leaders
(`np.mean` = sum / length). -/
def calculate_member_team_fit (sc : Scorer) (memberPd : ProfileData)
    (team_leaders : List TeamMember) : FitScores :=
  if team_leaders = [] then ⟨0, 0⟩
  else
    let mOff := parse_to_utc_offset memberPd.timezone
    let mCats := sc.memberCats memberPd
    let tzs := team_leaders.map (fun l =>
      calculate_compatibility mOff (parse_to_utc_offset l.profile_data.timezone))
    let cats := team_leaders.map (fun l =>
      calculate_categorical_score mCats (sc.memberCats l.profile_data))
    ⟨tzs.sum / (team_leaders.length : Rat), cats.sum / (team_leaders.length : Rat)⟩

/-! ## Formation service (`team_formation_service.py`) -/

/-- The configuration the pipeline reads: `TeamConfig.max_team_size` and the
two thresholds from `config.py` (env-configurable; defaults `12`, `0.1`,
`0.55`). -/
structure FormationConfig where
  maxTeamSize : Nat := 12
  minCategoryScoreThreshold : Rat := 1 / 10
  minTimezoneScoreThreshold : Rat := 55 / 100
deriving Repr, DecidableEq

/-- One input profile dictionary (an element of `unassigned_leaders` /
`unassigned_members`): `user_id` may be absent, the remaining fields are read
with `.get(…, default)`. -/
structure ProfileDict where
  user_id : Option String := none
  username : String := ""
  display_name : String := ""
  role_title : String := ""
  profile_data : ProfileData := {}
deriving Repr, DecidableEq, Inhabited

/-- The profile-intake loop of `form_teams_hierarchical`: profiles without a
`user_id` are skipped (logged and `continue`d), the rest become
`TeamMember`s. -/
def toTeamMember? (p : ProfileDict) : Option TeamMember :=
  p.user_id.map (fun uid =>
    { user_id := uid, username := p.username, display_name := p.display_name,
      role_title := p.role_title, profile_data := p.profile_data })

/-- The timezone key of Phase 1:
`parse_to_utc_offset(tz_string) if tz_string else None` (both `None` and the
empty string are falsy). -/
def phase1Key (m : TeamMember) : Option Rat :=
  match m.profile_data.timezone with
  | none => none
  | some s => if s = "" then none else parse_to_utc_offset (some s)

/-- `timezone_clusters[key].append(m)` on a `defaultdict(list)` keyed by
optional offsets. -/
def clusterAdd (key : Option Rat) (m : TeamMember) :
    List (Option Rat × List TeamMember) → List (Option Rat × List TeamMember)
  | [] => [(key, [m])]
  | (k, ms) :: rest =>
      if k = key then (k, ms ++ [m]) :: rest else (k, ms) :: clusterAdd key m rest

/-- `TeamFormationService._cluster_by_timezone` (Phase 1). -/
def cluster_by_timezone (all_members : List TeamMember) :
    List (Option Rat × List TeamMember) :=
  all_members.foldl (fun cl m => clusterAdd (phase1Key m) m cl) []

/-- `f"{leader_name.lower().replace(' ', '-')}"`. -/
def channelNameOf (leaderName : String) : String :=
  String.mk ((lowerChars leaderName.toList).map (fun c => if c == ' ' then '-' else c))

/-- `leader_cats` of Phase 2: `{l.user_id: get_member_categories(...) for l in
leaders}`. -/
def phase2LeaderCats (sc : Scorer) (leaders : List TeamMember) :
    List (String × Finset String) :=
  leaders.foldl (fun d l => dictInsert l.user_id (sc.memberCats l.profile_data) d) []

/-- `leader_scores` of Phase 2 for one non-leader member. -/
def phase2LeaderScores (sc : Scorer) (leaders : List TeamMember)
    (leader_cats : List (String × Finset String)) (mem : TeamMember) : List (String × Rat) :=
  leaders.foldl (fun d l =>
    dictInsert l.user_id
      (calculate_categorical_score (sc.memberCats mem.profile_data)
        (lookupD leader_cats l.user_id ∅)) d) []

/-- The loop body of Phase 2 over one non-leader: join the best-scoring
leader's assignment list when the best score reaches the threshold, orphan
otherwise. -/
def phase2Step (sc : Scorer) (cfg : FormationConfig) (leaders : List TeamMember)
    (leader_cats : List (String × Finset String))
    (st : List (String × List TeamMember) × List TeamMember) (mem : TeamMember) :
    List (String × List TeamMember) × List TeamMember :=
  match firstMaxBy (fun a b => a > b) (fun p => p.2)
      (phase2LeaderScores sc leaders leader_cats mem) with
  | none => st
  | some best =>
      if cfg.minCategoryScoreThreshold ≤ best.2 then
        (appendToKey best.1 mem st.1, st.2)
      else
        (st.1, st.2 ++ [mem])

/-- The team object Phase 2 builds from one assignment list. -/
def phase2MkTeam (members_list : List TeamMember) : Team :=
  let leader_name := (members_list.headD default).display_name
  { team_role := "Team " ++ leader_name,
    channel_name := channelNameOf leader_name,
    members := dictOfMembers members_list }

/-- The body of Phase 2 for one timezone group: leaderless groups orphan all
their members; otherwise each non-leader joins the best-scoring leader when
the best score reaches the category threshold, and each leader's assignment
list becomes a team.  Returns the teams and orphans contributed by the
group. -/
def processGroup (sc : Scorer) (cfg : FormationConfig) (members : List TeamMember) :
    List Team × List TeamMember :=
  let leaders := members.filter (fun m => m.is_leader)
  if leaders = [] then ([], members)
  else
    let non_leaders := members.filter (fun m => !m.is_leader)
    let leader_cats := phase2LeaderCats sc leaders
    let init : List (String × List TeamMember) :=
      leaders.foldl (fun d l => dictInsert l.user_id [l] d) []
    let result := non_leaders.foldl (phase2Step sc cfg leaders leader_cats) (init, [])
    (result.1.map (fun kv => phase2MkTeam kv.2), result.2)

/-- `TeamFormationService._cluster_by_category` (Phase 2): the groups are
processed in cluster order, teams and orphans accumulating across groups. -/
def cluster_by_category (sc : Scorer) (cfg : FormationConfig)
    (clusters : List (Option Rat × List TeamMember)) : List Team × List TeamMember :=
  clusters.foldl (fun acc grp =>
    let r := processGroup sc cfg grp.2
    (acc.1 ++ r.1, acc.2 ++ r.2)) ([], [])

/-- The semantic-compatibility matrix of Phase 3a: built from one awaited
call per unordered pair `i < j`, mirrored, zero diagonal. -/
def matrixEntry (sc : Scorer) (ms : List TeamMember) (i j : Nat) : Rat :=
  if i < j then sc.semCompat (ms.getD i default).profile_data (ms.getD j default).profile_data
  else if j < i then sc.semCompat (ms.getD j default).profile_data (ms.getD i default).profile_data
  else 0

/-- The sum of row `i` of the compatibility matrix: since the diagonal is
zero this is also the sum of member `i`'s compatibilities to all the other
members. -/
def rowSum (sc : Scorer) (ms : List TeamMember) (i : Nat) : Rat :=
  ((List.range ms.length).map (fun j => matrixEntry sc ms i j)).sum

/-- `np.mean(scores[i])`: the mean of row `i` over all `size` columns
(including the zero diagonal). -/
def rowMean (sc : Scorer) (ms : List TeamMember) (i : Nat) : Rat :=
  rowSum sc ms i / (ms.length : Rat)

/-- `TeamFormationService._optimize_oversized_team` (Phase 3a): keep every
leader, keep the top non-leaders by mean row compatibility up to
`max_team_size - len(leaders)`, orphan the rest. -/
def optimize_oversized_team (sc : Scorer) (cfg : FormationConfig) (team : Team) :
    Team × List TeamMember :=
  let ms := team.memberList
  let avg_scores : List (String × Rat) :=
    (List.range ms.length).foldl
      (fun d i => dictInsert (ms.getD i default).user_id (rowMean sc ms i) d) []
  let leaders := ms.filter (fun m => m.is_leader)
  let non_leaders :=
    sortDescBy (fun m => lookupD avg_scores m.user_id 0) (ms.filter (fun m => !m.is_leader))
  let slots_for_members : Int := (cfg.maxTeamSize : Int) - (leaders.length : Int)
  let kept_members := leaders ++ pyTake slots_for_members non_leaders
  let orphans := pyDrop slots_for_members non_leaders
  ({ team with members := dictOfMembers kept_members }, orphans)

/-- One candidate record of Phase 4: the team's index in the running team
list together with its recorded size and fit scores. -/
structure Candidate where
  team_idx : Nat
  size : Nat
  tz_score : Rat
  cat_score : Rat
deriving Repr, DecidableEq

/-- The candidate evaluation of Phase 4 for one orphan: teams at capacity or
without leaders are skipped; the rest are scored with
`calculate_member_team_fit`. -/
def candidatesFor (sc : Scorer) (cfg : FormationConfig) (teams : List Team)
    (orphan : TeamMember) : List Candidate :=
  (List.range teams.length).filterMap (fun i =>
    let t := teams.getD i default
    if cfg.maxTeamSize ≤ t.members.length then none
    else if t.get_leaders = [] then none
    else
      let fit := calculate_member_team_fit sc orphan.profile_data t.get_leaders
      some ⟨i, t.members.length, fit.tz_score, fit.cat_score⟩)

/-- The tiered selection of Phase 4 for one orphan: `none` when there are no
candidates; otherwise the chosen team's index. -/
def chooseTeam (cfg : FormationConfig) (cands : List Candidate) : Option Nat :=
  if cands = [] then none
  else
    let primary := cands.filter (fun c => cfg.minTimezoneScoreThreshold ≤ c.tz_score)
    let best :=
      if primary ≠ [] then
        firstMaxBy lexGt2 (fun c => (c.cat_score, -(c.size : Int))) primary
      else
        firstMaxBy lexGt3 (fun c => (c.tz_score, c.cat_score, -(c.size : Int))) cands
    best.map (fun c => c.team_idx)

/-- `best_team.members[orphan.user_id] = orphan` on the team at index `i`. -/
def placeOrphan (teams : List Team) (i : Nat) (orphan : TeamMember) : List Team :=
  teams.set i (let t := teams.getD i default
               { t with members := dictInsert orphan.user_id orphan t.members })

/-- `TeamFormationService._reassign_orphans` (Phase 4): each orphan is
processed against the current team list, so later orphans see the occupancy
produced by earlier placements; orphans without a chosen team accumulate as
`unassigned` in processing order. -/
def reassign_orphans (sc : Scorer) (cfg : FormationConfig) :
    List TeamMember → List Team → List Team × List TeamMember
  | [], teams => (teams, [])
  | o :: os, teams =>
      match chooseTeam cfg (candidatesFor sc cfg teams o) with
      | some i => reassign_orphans sc cfg os (placeOrphan teams i o)
      | none =>
          let r := reassign_orphans sc cfg os teams
          (r.1, o :: r.2)

/-- `TeamFormationService.form_teams_hierarchical`, instrumented to also
return the final `still_unassigned` list computed by Phase 4 (the Python
function computes it but returns only the team list). -/
def form_teams_full (sc : Scorer) (cfg : FormationConfig)
    (unassigned_leaders unassigned_members : List ProfileDict) :
    List Team × List TeamMember :=
  let all_members := (unassigned_leaders ++ unassigned_members).filterMap toTeamMember?
  let p2 := cluster_by_category sc cfg (cluster_by_timezone all_members)
  let p3 := p2.1.foldl (fun (st : List Team × List TeamMember) t =>
      if cfg.maxTeamSize < t.members.length then
        let r := optimize_oversized_team sc cfg t
        (st.1 ++ [r.1], st.2 ++ r.2)
      else (st.1 ++ [t], st.2)) ([], [])
  let all_orphans := p2.2 ++ p3.2
  if all_orphans = [] then (p3.1, [])
  else reassign_orphans sc cfg all_orphans p3.1

/-- `TeamFormationService.form_teams_hierarchical` as returned to the caller:
the team list only (`return final_teams`). -/
def form_teams_hierarchical (sc : Scorer) (cfg : FormationConfig)
    (unassigned_leaders unassigned_members : List ProfileDict) : List Team :=
  (form_teams_full sc cfg unassigned_leaders unassigned_members).1

/-! ## Theorems: timezone parsing (C10) -/

/-- The normalised input: `tz_string.upper().strip()`. -/
def stripUpper (s : String) : List Char := stripChars (upperChars s.toList)

/-- Decimal value of a digit string (most significant digit first). -/
def digitsVal (ds : List Char) : Nat := ds.foldl (fun a c => 10 * a + digitVal c) 0

/-- The optional minutes group rendered back to characters. -/
def minsChars : Option (Char × Char) → List Char
  | none => []
  | some (a, b) => [':', a, b]

/-- Numeric value of the optional minutes group. -/
def minsVal : Option (Char × Char) → Nat
  | none => 0
  | some (a, b) => 10 * digitVal a + digitVal b

/-- Whether a character list begins with `':'` followed by two digits (the
shape the optional minutes group of the offset regex consumes). -/
def startsColonTwoDigits : List Char → Bool
  | c :: a :: b :: _ => c == ':' && a.isDigit && b.isDigit
  | _ => false

/-- Whether a character list begins with a decimal digit. -/
def startsWithDigit : List Char → Bool
  | c :: _ => c.isDigit
  | [] => false

theorem tzMapLookup_utc_tail (c : Char) (l : List Char) :
    tzMapLookup ('U' :: 'T' :: 'C' :: c :: l) = none := by
  simp [tzMapLookup, findByKey, timezoneMap]

theorem tzMapLookup_gmt_tail (c : Char) (l : List Char) :
    tzMapLookup ('G' :: 'M' :: 'T' :: c :: l) = none := by
  simp [tzMapLookup, findByKey, timezoneMap]

theorem minsScan_some (a b : Char) (rest : List Char)
    (ha : a.isDigit) (hb : b.isDigit) :
    minsScan (':' :: a :: b :: rest) = some (10 * digitVal a + digitVal b) := by
  simp [minsScan, ha, hb]

theorem minsScan_none (rest : List Char) (h : ¬ startsColonTwoDigits rest) :
    minsScan rest = none := by
  match rest with
  | [] => rfl
  | [c] => rfl
  | [c, a] => rfl
  | c :: a :: b :: t =>
      simp only [startsColonTwoDigits, Bool.not_eq_true] at h
      simp [minsScan, h]

theorem parseAfterSign_two (pos : Bool) (d1 d2 : Char) (tail : List Char)
    (h1 : d1.isDigit) (h2 : d2.isDigit) :
    parseAfterSign pos (d1 :: d2 :: tail) =
      some (if pos then ((10 * digitVal d1 + digitVal d2 : Nat) : Rat) +
                  (match minsScan tail with | some m => (m : Rat) / 60 | none => 0)
            else -(((10 * digitVal d1 + digitVal d2 : Nat) : Rat) +
                  (match minsScan tail with | some m => (m : Rat) / 60 | none => 0))) := by
  simp [parseAfterSign, h1, h2]

theorem parseAfterSign_one (pos : Bool) (d : Char) (tail : List Char)
    (h1 : d.isDigit) (h2 : ¬ startsWithDigit tail) :
    parseAfterSign pos (d :: tail) =
      some (if pos then ((digitVal d : Nat) : Rat) +
                  (match minsScan tail with | some m => (m : Rat) / 60 | none => 0)
            else -(((digitVal d : Nat) : Rat) +
                  (match minsScan tail with | some m => (m : Rat) / 60 | none => 0))) := by
  cases tail with
  | nil => simp [parseAfterSign, h1]
  | cons c t =>
      have hc : c.isDigit = false := by
        simpa [startsWithDigit] using h2
      simp [parseAfterSign, h1, hc]

/-- C10, head-shape part. -/
theorem parse_offset_head (s : String) (tag sp : List Char) (pos : Bool)
    (ds : List Char) (mins : Option (Char × Char)) (rest : List Char)
    (htag : tag = ['U', 'T', 'C'] ∨ tag = ['G', 'M', 'T'])
    (hsp : sp = [] ∨ sp = [' '])
    (hs : stripUpper s = tag ++ sp ++ (if pos then '+' else '-') :: (ds ++ minsChars mins ++ rest))
    (hds : (∃ d, ds = [d] ∧ d.isDigit) ∨ (∃ d1 d2, ds = [d1, d2] ∧ d1.isDigit ∧ d2.isDigit))
    (hgreedyH : ds.length = 1 → ¬ startsWithDigit (minsChars mins ++ rest))
    (hmins : ∀ a b, mins = some (a, b) → a.isDigit ∧ b.isDigit)
    (hgreedyM : mins = none → ¬ startsColonTwoDigits rest) :
    parse_to_utc_offset (some s) =
      some ((if pos then (1 : Rat) else -1) *
        ((digitsVal ds : Rat) + (minsVal mins : Rat) / 60)) := by
  unfold stripUpper at hs
  have hbody : parse_to_utc_offset (some s) =
      parseAfterSign pos (ds ++ minsChars mins ++ rest) := by
    simp only [parse_to_utc_offset, hs]
    rcases htag with h | h <;> subst h <;> rcases hsp with h' | h' <;> subst h' <;> cases pos <;>
      simp [tzMapLookup_utc_tail, tzMapLookup_gmt_tail, matchOffsetAtStart,
            parseOffsetBody, parseSigned, isWsChar]
  rw [hbody]
  have hmscan : minsScan (minsChars mins ++ rest) =
      match mins with
      | some (a, b) => some (10 * digitVal a + digitVal b)
      | none => none := by
    cases mins with
    | some p =>
        obtain ⟨a, b⟩ := p
        obtain ⟨ha, hb⟩ := hmins a b rfl
        simpa [minsChars] using minsScan_some a b rest ha hb
    | none => simpa [minsChars] using minsScan_none rest (hgreedyM rfl)
  rcases hds with ⟨d, hd, hdig⟩ | ⟨d1, d2, hd2, h1, h2⟩
  · subst hd
    have hnd : ¬ startsWithDigit (minsChars mins ++ rest) := hgreedyH rfl
    rw [show ([d] ++ minsChars mins ++ rest) = d :: (minsChars mins ++ rest) by simp]
    rw [parseAfterSign_one pos d _ hdig hnd, hmscan]
    cases mins with
    | some p =>
        obtain ⟨a, b⟩ := p
        cases pos <;> simp [digitsVal, minsVal]
    | none =>
        cases pos <;> simp [digitsVal, minsVal]
  · subst hd2
    rw [show ([d1, d2] ++ minsChars mins ++ rest) = d1 :: d2 :: (minsChars mins ++ rest) by simp]
    rw [parseAfterSign_two pos d1 d2 _ h1 h2, hmscan]
    cases mins with
    | some p =>
        obtain ⟨a, b⟩ := p
        cases pos <;> simp [digitsVal, minsVal]
    | none =>
        cases pos <;> simp [digitsVal, minsVal]

/-- The head shape the offset regex requires after the `UTC`/`GMT` tag. -/
def offsetHeadShape (cs : List Char) : Prop :=
  ∃ ws sgn d t, cs = ws ++ sgn :: d :: t ∧
    (ws = [] ∨ (∃ w, ws = [w] ∧ isWsChar w)) ∧ (sgn = '+' ∨ sgn = '-') ∧ d.isDigit

/-- An input `parse_to_utc_offset` recognises: an abbreviation-table key, or
a `UTC`/`GMT` tag followed by an optional whitespace, a sign and a digit. -/
def recognizedTz (cs : List Char) : Prop :=
  (∃ p ∈ timezoneMap, p.1 = cs) ∨
  (∃ tag body, (tag = ['U', 'T', 'C'] ∨ tag = ['G', 'M', 'T']) ∧
      cs = tag ++ body ∧ offsetHeadShape body)

theorem findByKey_some {l : List (List Char × Rat)} {cs : List Char} {v : Rat}
    (h : findByKey l cs = some v) : ∃ p ∈ l, p.1 = cs := by
  induction l with
  | nil => simp [findByKey] at h
  | cons p rest ih =>
      obtain ⟨k, w⟩ := p
      by_cases hk : cs = k
      · exact ⟨(k, w), by simp, hk.symm⟩
      · simp only [findByKey, if_neg hk] at h
        obtain ⟨q, hq, hqe⟩ := ih h
        exact ⟨q, by simp [hq], hqe⟩

theorem parseAfterSign_shape {pos : Bool} {cs : List Char} {v : Rat}
    (h : parseAfterSign pos cs = some v) : ∃ d t, cs = d :: t ∧ d.isDigit := by
  cases cs with
  | nil => simp [parseAfterSign] at h
  | cons d t =>
      by_cases hd : d.isDigit
      · exact ⟨d, t, rfl, hd⟩
      · simp [parseAfterSign, hd] at h

theorem parseSigned_shape {cs : List Char} {v : Rat}
    (h : parseSigned cs = some v) :
    ∃ sgn d t, cs = sgn :: d :: t ∧ (sgn = '+' ∨ sgn = '-') ∧ d.isDigit := by
  unfold parseSigned at h
  split at h
  · rename_i rest
    obtain ⟨d, t, ht, hd⟩ := parseAfterSign_shape h
    exact ⟨'+', d, t, by rw [ht], Or.inl rfl, hd⟩
  · rename_i rest
    obtain ⟨d, t, ht, hd⟩ := parseAfterSign_shape h
    exact ⟨'-', d, t, by rw [ht], Or.inr rfl, hd⟩
  · exact absurd h (by simp)

theorem parseOffsetBody_shape {cs : List Char} {v : Rat}
    (h : parseOffsetBody cs = some v) : offsetHeadShape cs := by
  cases cs with
  | nil => simp [parseOffsetBody] at h
  | cons c rest =>
      by_cases hw : isWsChar c
      · simp only [parseOffsetBody, hw, if_pos] at h
        obtain ⟨sgn, d, t, ht, hsgn, hd⟩ := parseSigned_shape h
        exact ⟨[c], sgn, d, t, by simp [ht], Or.inr ⟨c, rfl, hw⟩, hsgn, hd⟩
      · simp only [parseOffsetBody, hw] at h
        obtain ⟨sgn, d, t, ht, hsgn, hd⟩ := parseSigned_shape (by simpa using h)
        exact ⟨[], sgn, d, t, by simp [ht], Or.inl rfl, hsgn, hd⟩

theorem matchOffsetAtStart_shape {cs : List Char} {v : Rat}
    (h : matchOffsetAtStart cs = some v) :
    ∃ tag body, (tag = ['U', 'T', 'C'] ∨ tag = ['G', 'M', 'T']) ∧
      cs = tag ++ body ∧ offsetHeadShape body := by
  match cs with
  | [] => simp [matchOffsetAtStart] at h
  | [a] => simp [matchOffsetAtStart] at h
  | [a, b] => simp [matchOffsetAtStart] at h
  | a :: b :: c :: rest =>
      by_cases hc : (a == 'U' && b == 'T' && c == 'C') || (a == 'G' && b == 'M' && c == 'T')
      · simp only [matchOffsetAtStart, hc, if_pos] at h
        rcases Bool.or_eq_true_iff.mp hc with h3 | h3
        · have ha : a = 'U' := by simpa using (Bool.and_eq_true_iff.mp (Bool.and_eq_true_iff.mp h3).1).1
          have hb : b = 'T' := by simpa using (Bool.and_eq_true_iff.mp (Bool.and_eq_true_iff.mp h3).1).2
          have hcc : c = 'C' := by simpa using (Bool.and_eq_true_iff.mp h3).2
          exact ⟨['U', 'T', 'C'], rest, Or.inl rfl, by simp [ha, hb, hcc],
                 parseOffsetBody_shape h⟩
        · have ha : a = 'G' := by simpa using (Bool.and_eq_true_iff.mp (Bool.and_eq_true_iff.mp h3).1).1
          have hb : b = 'M' := by simpa using (Bool.and_eq_true_iff.mp (Bool.and_eq_true_iff.mp h3).1).2
          have hcc : c = 'T' := by simpa using (Bool.and_eq_true_iff.mp h3).2
          exact ⟨['G', 'M', 'T'], rest, Or.inr rfl, by simp [ha, hb, hcc],
                 parseOffsetBody_shape h⟩
      · simp [matchOffsetAtStart, hc] at h

theorem parse_recognized {s : String} (h : parse_to_utc_offset (some s) ≠ none) :
    recognizedTz (stripUpper s) := by
  have h' : (match tzMapLookup (stripChars (upperChars s.toList)) with
             | some v => some v
             | none => matchOffsetAtStart (stripChars (upperChars s.toList))) ≠ none := by
    simpa [parse_to_utc_offset] using h
  cases hl : tzMapLookup (stripChars (upperChars s.toList)) with
  | some v =>
      exact Or.inl (findByKey_some (by simpa [tzMapLookup] using hl))
  | none =>
      rw [hl] at h'
      cases hm : matchOffsetAtStart (stripChars (upperChars s.toList)) with
      | none => rw [hm] at h'; simp at h'
      | some v => exact Or.inr (matchOffsetAtStart_shape hm)

/-- **C10.** `parse_to_utc_offset` matches the UTC/GMT offset pattern only at
the start of the trimmed, uppercased input: every input whose normalised form
begins with `UTC`/`GMT`, an optional space, a sign, one or two digits and
optionally `':'` plus two digits parses to the signed decimal offset whatever
trails (so `"UTC+5:30pm"` gives `5.5`), minutes are not validated against 60
(so `"UTC+5:99"` gives `6.65`), and any unrecognised input — neither a table
abbreviation nor such a head — yields `none` rather than an error. -/
theorem C10_offset_parsing :
    (∀ (s : String) (tag sp : List Char) (pos : Bool) (ds : List Char)
       (mins : Option (Char × Char)) (rest : List Char),
       tag = ['U', 'T', 'C'] ∨ tag = ['G', 'M', 'T'] →
       sp = [] ∨ sp = [' '] →
       stripUpper s = tag ++ sp ++ (if pos then '+' else '-') :: (ds ++ minsChars mins ++ rest) →
       ((∃ d, ds = [d] ∧ d.isDigit) ∨ (∃ d1 d2, ds = [d1, d2] ∧ d1.isDigit ∧ d2.isDigit)) →
       (ds.length = 1 → ¬ startsWithDigit (minsChars mins ++ rest)) →
       (∀ a b, mins = some (a, b) → a.isDigit ∧ b.isDigit) →
       (mins = none → ¬ startsColonTwoDigits rest) →
       parse_to_utc_offset (some s) =
         some ((if pos then (1 : Rat) else -1) *
           ((digitsVal ds : Rat) + (minsVal mins : Rat) / 60))) ∧
    (∀ s : String, parse_to_utc_offset (some s) ≠ none → recognizedTz (stripUpper s)) ∧
    parse_to_utc_offset none = none :=
  ⟨parse_offset_head, fun _ h => parse_recognized h, rfl⟩

/-- Witness for C10 at the spec's two concrete inputs. -/
theorem C10_offset_parsing_witness :
    parse_to_utc_offset (some "UTC+5:30pm") = some ((11 : Rat) / 2) ∧
    parse_to_utc_offset (some "UTC+5:99") = some ((133 : Rat) / 20) := by
  constructor
  · have h := C10_offset_parsing.1 "UTC+5:30pm" ['U', 'T', 'C'] [] true ['5']
      (some ('3', '0')) ['P', 'M'] (Or.inl rfl) (Or.inl rfl) (by decide)
      (Or.inl ⟨'5', rfl, by decide⟩) (fun _ => by decide)
      (fun a b hab => by
        obtain ⟨h1, h2⟩ := Prod.mk.injEq _ _ _ _ |>.mp (Option.some_inj.mp hab.symm)
        subst h1; subst h2; exact ⟨by decide, by decide⟩)
      (fun hn => nomatch hn)
    rw [h]
    have e1 : digitsVal ['5'] = 5 := by decide
    have e2 : minsVal (some ('3', '0')) = 30 := by decide
    rw [e1, e2]; norm_num
  · have h := C10_offset_parsing.1 "UTC+5:99" ['U', 'T', 'C'] [] true ['5']
      (some ('9', '9')) [] (Or.inl rfl) (Or.inl rfl) (by decide)
      (Or.inl ⟨'5', rfl, by decide⟩) (fun _ => by decide)
      (fun a b hab => by
        obtain ⟨h1, h2⟩ := Prod.mk.injEq _ _ _ _ |>.mp (Option.some_inj.mp hab.symm)
        subst h1; subst h2; exact ⟨by decide, by decide⟩)
      (fun hn => nomatch hn)
    rw [h]
    have e1 : digitsVal ['5'] = 5 := by decide
    have e2 : minsVal (some ('9', '9')) = 99 := by decide
    rw [e1, e2]; norm_num

/-! ## Theorems: category matcher (C8, C9) -/

theorem scoreOf_ratAdd (d : List (String × Rat)) (c : String) (v : Rat) (cat : String) :
    scoreOf (ratAdd c v d) cat = scoreOf d cat + (if cat = c then v else 0) := by
  induction d with
  | nil =>
      by_cases h : cat = c
      · rw [h]; simp [ratAdd, scoreOf]
      · have h' : ¬ c = cat := fun hh => h hh.symm
        simp [ratAdd, scoreOf, h, h']
  | cons p rest ih =>
      obtain ⟨k, w⟩ := p
      by_cases hkc : k = c
      · rw [show ratAdd c v ((k, w) :: rest) = (k, w + v) :: rest by simp [ratAdd, hkc]]
        simp only [scoreOf]
        by_cases hkcat : k = cat
        · rw [if_pos hkcat, if_pos hkcat, if_pos (hkcat.symm.trans hkc)]
        · rw [if_neg hkcat, if_neg hkcat,
              if_neg (fun h : cat = c => hkcat (hkc.trans h.symm))]
          ring
      · rw [show ratAdd c v ((k, w) :: rest) = (k, w) :: ratAdd c v rest by
              simp [ratAdd, hkc]]
        simp only [scoreOf]
        by_cases hkcat : k = cat
        · rw [if_pos hkcat, if_pos hkcat,
              if_neg (fun h : cat = c => hkc (hkcat.trans h))]
          ring
        · rw [if_neg hkcat, if_neg hkcat, ih]

theorem scoreOf_foldl_cats (cats : List String) (v : Rat) (cat : String) :
    ∀ d : List (String × Rat),
      scoreOf (cats.foldl (fun d c => ratAdd c v d) d) cat =
        scoreOf d cat + v * (cats.count cat) := by
  induction cats with
  | nil => intro d; simp
  | cons c cs ih =>
      intro d
      simp only [List.foldl_cons, ih, scoreOf_ratAdd]
      rw [List.count_cons]
      by_cases h : cat = c
      · rw [h]; simp; ring
      · have h' : ¬ c = cat := fun hh => h hh.symm
        simp [h, h']

theorem scoreOf_foldl_kws (tax : Taxonomy) (kws : List (List Char)) (cat : String) :
    ∀ d : List (String × Rat),
      scoreOf (kws.foldl (fun d kw =>
          (kwCategories tax kw).foldl (fun d c => ratAdd c (specScore tax kw) d) d) d) cat =
        scoreOf d cat +
          (kws.map (fun kw => if cat ∈ kwCategories tax kw then specScore tax kw else 0)).sum := by
  induction kws with
  | nil => intro d; simp
  | cons kw rest ih =>
      intro d
      simp only [List.foldl_cons, ih, scoreOf_foldl_cats]
      have hnd : (kwCategories tax kw).Nodup := List.nodup_dedup _
      by_cases h : cat ∈ kwCategories tax kw
      · rw [List.count_eq_one_of_mem hnd h]
        simp [h]; ring
      · rw [List.count_eq_zero_of_not_mem h]
        simp [h]

theorem hasWordOccurrence_nil (kw : List Char) : hasWordOccurrence kw [] = false := by
  simp [hasWordOccurrence, boundaryAt, wordAt, List.range_succ]

/-- The scoring identity of `get_scored_categories` on a (string) input. -/
theorem get_scored_categories_eq (tax : Taxonomy) (t : String) (cat : String) :
    scoreOf (get_scored_categories tax (some t)) cat =
      (((knownKeywords tax).filter
          (fun kw => hasWordOccurrence kw (lowerChars t.toList))).map
        (fun kw => if cat ∈ kwCategories tax kw then specScore tax kw else 0)).sum := by
  by_cases ht : t = ""
  · rw [ht]
    rw [show get_scored_categories tax (some "") = [] by simp [get_scored_categories]]
    have h0 : lowerChars ("" : String).toList = [] := rfl
    have hfil : (knownKeywords tax).filter
        (fun kw => hasWordOccurrence kw (lowerChars ("" : String).toList)) = [] := by
      apply List.filter_eq_nil_iff.mpr
      intro kw _
      rw [h0]
      simp [hasWordOccurrence_nil]
    rw [hfil]
    simp [scoreOf]
  · simp only [get_scored_categories, if_neg ht]
    rw [scoreOf_foldl_kws]
    simp [scoreOf]

/-- A small concrete taxonomy used by witnesses: `"ai"` maps to two
categories, `"train"` and `"web"` to one each. -/
def exampleTaxonomy : Taxonomy :=
  [("tech", [("ai", ["ai", "train"]), ("web", ["web", "ai"])])]

/-- **C8.** `get_scored_categories` scores exactly the keywords that occur in
the lowercased text delimited by word boundaries — a keyword only occurring
inside a longer word (like `train` inside `training`) contributes nothing —
adding each matched keyword's specificity to every category it maps to; empty
or non-string input yields an empty mapping. -/
theorem C8_whole_word_category_scoring :
    (∀ (tax : Taxonomy) (t : String) (cat : String),
       scoreOf (get_scored_categories tax (some t)) cat =
         (((knownKeywords tax).filter
             (fun kw => hasWordOccurrence kw (lowerChars t.toList))).map
           (fun kw => if cat ∈ kwCategories tax kw then specScore tax kw else 0)).sum) ∧
    (∀ tax : Taxonomy,
       get_scored_categories tax none = [] ∧ get_scored_categories tax (some "") = []) ∧
    get_scored_categories exampleTaxonomy (some "I like training hard") = [] :=
  ⟨get_scored_categories_eq,
   fun tax => ⟨rfl, by simp [get_scored_categories]⟩,
   by decide⟩

/-- Witness for C8: fully-scored concrete run ("ai" matched as a whole word,
"train" not matched inside "training"). -/
theorem C8_whole_word_category_scoring_witness :
    scoreOf (get_scored_categories exampleTaxonomy (some "AI training")) "tech:ai" = 1 / 2 := by
  have h := C8_whole_word_category_scoring.1 exampleTaxonomy "AI training" "tech:ai"
  rw [h]
  have hfil : (knownKeywords exampleTaxonomy).filter
      (fun kw => hasWordOccurrence kw (lowerChars ("AI training" : String).toList)) =
      [['a', 'i']] := by decide
  rw [hfil]
  have hmem : "tech:ai" ∈ kwCategories exampleTaxonomy ['a', 'i'] := by decide
  have hcnt : kwCount exampleTaxonomy ['a', 'i'] = 2 := by decide
  simp [hmem, specScore, hcnt]

/-- **C9.** The cached specificity score of every taxonomy keyword is the
reciprocal of the number of distinct categories it maps to, provided the
taxonomy lists a keyword at most once per category (the duplicate-free shape
the spec prescribes for the closed taxonomy); keywords of exactly one
category score exactly 1. -/
theorem C9_specificity_reciprocal (tax : Taxonomy) (kw : List Char)
    (_hkw : kw ∈ knownKeywords tax)
    (hocc : (((taxTriples tax).filter (fun p => p.1 == kw)).map (fun p => p.2)).Nodup) :
    specScore tax kw = 1 / ((kwCategories tax kw).length : Rat) ∧
    ((kwCategories tax kw).length = 1 → specScore tax kw = 1) := by
  have hdedup : kwCategories tax kw =
      ((taxTriples tax).filter (fun p => p.1 == kw)).map (fun p => p.2) :=
    List.dedup_eq_self.mpr hocc
  have hcount : kwCount tax kw =
      (((taxTriples tax).filter (fun p => p.1 == kw)).map (fun p => p.2)).length := by
    simp [kwCount, List.countP_eq_length_filter]
  have hmain : specScore tax kw = 1 / ((kwCategories tax kw).length : Rat) := by
    rw [specScore, hcount, hdedup]
  exact ⟨hmain, fun h1 => by rw [hmain, h1]; norm_num⟩

/-- Witness for C9: in the example taxonomy, `"ai"` (two categories) scores
`1/2` and `"train"` (one category) scores `1`. -/
theorem C9_specificity_reciprocal_witness :
    specScore exampleTaxonomy ['a', 'i'] = 1 / 2 ∧
    specScore exampleTaxonomy ['t', 'r', 'a', 'i', 'n'] = 1 := by
  constructor
  · have h := (C9_specificity_reciprocal exampleTaxonomy ['a', 'i']
      (by decide) (by decide)).1
    rw [h]
    have hlen : (kwCategories exampleTaxonomy ['a', 'i']).length = 2 := by decide
    rw [hlen]
    norm_num
  · exact (C9_specificity_reciprocal exampleTaxonomy ['t', 'r', 'a', 'i', 'n']
      (by decide) (by decide)).2 (by decide)

/-! ### Association-list and helper lemmas for the pipeline -/

theorem dictInsert_eq_append {α : Type} (k : String) (v : α) (d : List (String × α))
    (h : ∀ p ∈ d, p.1 ≠ k) : dictInsert k v d = d ++ [(k, v)] := by
  induction d with
  | nil => rfl
  | cons p rest ih =>
      obtain ⟨k', v'⟩ := p
      have hk : k' ≠ k := h (k', v') (by simp)
      simp only [dictInsert, if_neg hk, List.cons_append, List.cons.injEq, true_and]
      exact ih (fun q hq => h q (by simp [hq]))

theorem foldl_dictInsert_acc {α β : Type} (key : α → String) (val : α → β) :
    ∀ (xs : List α) (acc : List (String × β)),
      (∀ p ∈ acc, ∀ x ∈ xs, p.1 ≠ key x) → (xs.map key).Nodup →
      xs.foldl (fun d x => dictInsert (key x) (val x) d) acc =
        acc ++ xs.map (fun x => (key x, val x)) := by
  intro xs
  induction xs with
  | nil => intro acc _ _; simp
  | cons x rest ih =>
      intro acc hdisj hnd
      simp only [List.foldl_cons]
      rw [dictInsert_eq_append _ _ _ (fun p hp => hdisj p hp x (by simp))]
      rw [ih (acc ++ [(key x, val x)])
            (by
              intro p hp y hy
              rcases List.mem_append.mp hp with h | h
              · exact hdisj p h y (by simp [hy])
              · have hpe : p = (key x, val x) := by simpa using h
                rw [hpe]
                simp only [List.map_cons, List.nodup_cons] at hnd
                intro hh
                simp only at hh
                exact hnd.1 (by rw [hh]; exact List.mem_map_of_mem key hy))
            (by simp only [List.map_cons, List.nodup_cons] at hnd; exact hnd.2)]
      simp

theorem foldl_dictInsert_eq_map {α β : Type} (key : α → String) (val : α → β)
    (xs : List α) (hnd : (xs.map key).Nodup) :
    xs.foldl (fun d x => dictInsert (key x) (val x) d) [] =
      xs.map (fun x => (key x, val x)) := by
  simpa using foldl_dictInsert_acc key val xs [] (by simp) hnd

theorem dictOfMembers_eq_map (ms : List TeamMember)
    (hnd : (ms.map TeamMember.user_id).Nodup) :
    dictOfMembers ms = ms.map (fun m => (m.user_id, m)) :=
  foldl_dictInsert_eq_map TeamMember.user_id id ms hnd

theorem lookupD_cons_eq {β : Type} (k : String) (v : β) (t : List (String × β)) (d : β) :
    lookupD ((k, v) :: t) k d = v := by
  simp [lookupD, List.lookup]

theorem lookupD_cons_ne {β : Type} (k k' : String) (v : β) (t : List (String × β)) (d : β)
    (h : k' ≠ k) : lookupD ((k', v) :: t) k d = lookupD t k d := by
  have hb : (k == k') = false := by
    simpa using fun hh => h hh.symm
  simp [lookupD, List.lookup, hb]

theorem lookupD_map_eq {α β : Type} (key : α → String) (val : α → β) (xs : List α)
    (hnd : (xs.map key).Nodup) (x : α) (hx : x ∈ xs) (d : β) :
    lookupD (xs.map (fun x => (key x, val x))) (key x) d = val x := by
  induction xs with
  | nil => simp at hx
  | cons y rest ih =>
      simp only [List.map_cons, List.nodup_cons] at hnd
      rcases List.mem_cons.mp hx with h | h
      · subst h
        exact lookupD_cons_eq _ _ _ _
      · have hne : key y ≠ key x := by
          intro hh
          exact hnd.1 (by rw [hh]; exact List.mem_map_of_mem key h)
        rw [List.map_cons, lookupD_cons_ne _ _ _ _ _ hne]
        exact ih hnd.2 h

theorem dictInsert_length_le {α : Type} (k : String) (v : α) (d : List (String × α)) :
    (dictInsert k v d).length ≤ d.length + 1 := by
  induction d with
  | nil => simp [dictInsert]
  | cons p rest ih =>
      obtain ⟨k', v'⟩ := p
      by_cases h : k' = k <;> simp [dictInsert, h] <;> omega

theorem dictOfMembers_length_le (ms : List TeamMember) :
    (dictOfMembers ms).length ≤ ms.length := by
  suffices h : ∀ (ms : List TeamMember) (acc : List (String × TeamMember)),
      (ms.foldl (fun d m => dictInsert m.user_id m d) acc).length ≤ acc.length + ms.length by
    simpa using h ms []
  intro ms
  induction ms with
  | nil => intro acc; simp
  | cons m rest ih =>
      intro acc
      simp only [List.foldl_cons, List.length_cons]
      have h1 := ih (dictInsert m.user_id m acc)
      have h2 := dictInsert_length_le m.user_id m acc
      omega

/-- The member objects stored in a dict, in order. -/
def dictVals (d : List (String × TeamMember)) : List TeamMember :=
  d.map (fun p => p.2)

theorem dictInsert_countP_le (p : TeamMember → Bool) (k : String) (v : TeamMember)
    (d : List (String × TeamMember)) :
    (dictVals (dictInsert k v d)).countP p ≤ (dictVals d).countP p + (if p v then 1 else 0) := by
  induction d with
  | nil =>
      simp only [dictInsert, dictVals, List.map_cons, List.map_nil, List.countP_cons,
                 List.countP_nil]
      omega
  | cons q rest ih =>
      obtain ⟨k', v'⟩ := q
      by_cases h : k' = k
      · simp only [dictInsert, if_pos h, dictVals, List.map_cons, List.countP_cons]
        omega
      · simp only [dictInsert, if_neg h, dictVals, List.map_cons, List.countP_cons]
        simp only [dictVals] at ih
        omega

theorem dictOfMembers_countP_le (p : TeamMember → Bool) (ms : List TeamMember) :
    (dictVals (dictOfMembers ms)).countP p ≤ ms.countP p := by
  suffices h : ∀ (ms : List TeamMember) (acc : List (String × TeamMember)),
      (dictVals (ms.foldl (fun d m => dictInsert m.user_id m d) acc)).countP p ≤
        (dictVals acc).countP p + ms.countP p by
    simpa [dictVals, dictOfMembers] using h ms []
  intro ms
  induction ms with
  | nil => intro acc; simp
  | cons m rest ih =>
      intro acc
      simp only [List.foldl_cons, List.countP_cons]
      have h1 := ih (dictInsert m.user_id m acc)
      have h2 := dictInsert_countP_le p m.user_id m acc
      by_cases hm : p m <;> simp [hm] at h2 ⊢ <;> omega

theorem appendToKey_flatten_perm (k : String) (m : TeamMember)
    (d : List (String × List TeamMember)) :
    List.Perm ((appendToKey k m d).map (fun p => p.2)).flatten
      (m :: (d.map (fun p => p.2)).flatten) := by
  induction d with
  | nil => simp [appendToKey]
  | cons q rest ih =>
      obtain ⟨k', ms⟩ := q
      by_cases h : k' = k
      · simp only [appendToKey, if_pos h, List.map_cons, List.flatten_cons]
        rw [List.append_assoc]
        simpa using List.perm_middle
      · simp only [appendToKey, if_neg h, List.map_cons, List.flatten_cons]
        exact (ih.append_left ms).trans List.perm_middle

theorem clusterAdd_flatten_perm (key : Option Rat) (m : TeamMember)
    (cl : List (Option Rat × List TeamMember)) :
    List.Perm ((clusterAdd key m cl).map (fun p => p.2)).flatten
      (m :: (cl.map (fun p => p.2)).flatten) := by
  induction cl with
  | nil => simp [clusterAdd]
  | cons q rest ih =>
      obtain ⟨k, ms⟩ := q
      by_cases h : k = key
      · simp only [clusterAdd, if_pos h, List.map_cons, List.flatten_cons]
        rw [List.append_assoc]
        simpa using List.perm_middle
      · simp only [clusterAdd, if_neg h, List.map_cons, List.flatten_cons]
        exact (ih.append_left ms).trans List.perm_middle

theorem cluster_by_timezone_perm (all_members : List TeamMember) :
    List.Perm ((cluster_by_timezone all_members).map (fun p => p.2)).flatten all_members := by
  suffices h : ∀ (ms : List TeamMember) (acc : List (Option Rat × List TeamMember)),
      List.Perm ((ms.foldl (fun cl m => clusterAdd (phase1Key m) m cl) acc).map
          (fun p => p.2)).flatten
        ((acc.map (fun p => p.2)).flatten ++ ms) by
    simpa using h all_members []
  intro ms
  induction ms with
  | nil => intro acc; simp [cluster_by_timezone]
  | cons m rest ih =>
      intro acc
      simp only [List.foldl_cons]
      exact ((ih _).trans
        (((clusterAdd_flatten_perm (phase1Key m) m acc).append_right rest).trans
          List.perm_middle.symm))

theorem insertDescBy_perm {α : Type} (key : α → Rat) (x : α) (l : List α) :
    List.Perm (insertDescBy key x l) (x :: l) := by
  induction l with
  | nil => simp [insertDescBy]
  | cons y ys ih =>
      by_cases h : key x ≤ key y
      · simp only [insertDescBy, if_pos h]
        exact (ih.cons y).trans (List.Perm.swap x y ys)
      · simp [insertDescBy, if_neg h]

theorem sortDescBy_perm {α : Type} (key : α → Rat) (l : List α) :
    List.Perm (sortDescBy key l) l := by
  induction l with
  | nil => simp [sortDescBy]
  | cons x xs ih =>
      exact (insertDescBy_perm key x (sortDescBy key xs)).trans (ih.cons x)

theorem insertDescBy_sorted {α : Type} (key : α → Rat) (x : α) (l : List α)
    (h : l.Pairwise (fun a b => key b ≤ key a)) :
    (insertDescBy key x l).Pairwise (fun a b => key b ≤ key a) := by
  induction l with
  | nil => simp [insertDescBy]
  | cons y ys ih =>
      rcases List.pairwise_cons.mp h with ⟨hy, hys⟩
      by_cases hxy : key x ≤ key y
      · simp only [insertDescBy, if_pos hxy]
        refine List.pairwise_cons.mpr ⟨?_, ih hys⟩
        intro b hb
        have hb' : b ∈ x :: ys := (insertDescBy_perm key x ys).mem_iff.mp hb
        rcases List.mem_cons.mp hb' with hbx | hbys
        · exact hbx ▸ hxy
        · exact hy b hbys
      · simp only [insertDescBy, if_neg hxy]
        push_neg at hxy
        refine List.pairwise_cons.mpr ⟨?_, h⟩
        intro b hb
        rcases List.mem_cons.mp hb with hby | hbys
        · exact hby ▸ hxy.le
        · exact le_trans (hy b hbys) hxy.le

theorem sortDescBy_sorted {α : Type} (key : α → Rat) (l : List α) :
    (sortDescBy key l).Pairwise (fun a b => key b ≤ key a) := by
  induction l with
  | nil => simp [sortDescBy]
  | cons x xs ih => exact insertDescBy_sorted key x _ ih

/-- Elements kept by the take/drop split of a descending-sorted list dominate
the dropped ones. -/
theorem sorted_take_drop_le {α : Type} (key : α → Rat) (l : List α) (n : Nat)
    (h : l.Pairwise (fun a b => key b ≤ key a)) :
    ∀ x ∈ l.take n, ∀ y ∈ l.drop n, key y ≤ key x := by
  have hsplit : l = l.take n ++ l.drop n := (List.take_append_drop n l).symm
  rw [hsplit] at h
  exact fun x hx y hy => (List.pairwise_append.mp h).2.2 x hx y hy

theorem firstMaxBy_eq_some {α β : Type} (gt : β → β → Bool) (key : α → β)
    (x : α) (xs : List α) :
    ∃ r, firstMaxBy gt key (x :: xs) = some r := ⟨_, rfl⟩

theorem firstMaxBy_spec {α β : Type} (gt : β → β → Bool) (key : α → β)
    (hirr : ∀ a, gt a a = false)
    (htrans : ∀ a b c, gt a b = true → gt b c = true → gt a c = true)
    (htot : ∀ a b c, gt a c = true → gt a b = false → gt b c = true) :
    ∀ (l : List α) (r : α), firstMaxBy gt key l = some r →
      r ∈ l ∧ ∀ y ∈ l, gt (key y) (key r) = false := by
  have main : ∀ (ys : List α) (b : α),
      (ys.foldl (fun best y => if gt (key y) (key best) then y else best) b) ∈ b :: ys ∧
      gt (key b) (key (ys.foldl (fun best y => if gt (key y) (key best) then y else best) b))
        = false ∧
      ∀ y ∈ ys,
        gt (key y) (key (ys.foldl (fun best y => if gt (key y) (key best) then y else best) b))
          = false := by
    intro ys
    induction ys with
    | nil =>
        intro b
        exact ⟨by simp, hirr _, by simp⟩
    | cons y ys ih =>
        intro b
        by_cases hxy : gt (key y) (key b)
        · simp only [List.foldl_cons, if_pos hxy]
          obtain ⟨hmem, hb, hall⟩ := ih y
          refine ⟨?_, ?_, ?_⟩
          · rcases List.mem_cons.mp hmem with h | h
            · simp [h]
            · simp [List.mem_cons.mpr (Or.inr h)]
          · -- ¬ gt b r: if it were, gt y b ∧ ... transitivity contradiction with ¬ gt y r
            by_contra hcon
            rw [Bool.not_eq_false] at hcon
            have : gt (key y) (key _) = true := htrans _ _ _ hxy hcon
            rw [hb] at this
            exact Bool.false_ne_true this
          · intro z hz
            rcases List.mem_cons.mp hz with h | h
            · rw [h]; exact hb
            · exact hall z h
        · simp only [List.foldl_cons, if_neg hxy]
          obtain ⟨hmem, hb, hall⟩ := ih b
          refine ⟨?_, hb, ?_⟩
          · rcases List.mem_cons.mp hmem with h | h
            · simp [h]
            · simp [List.mem_cons.mpr (Or.inr h)]
          · intro z hz
            rcases List.mem_cons.mp hz with h | h
            · -- z = y: ¬ gt y r from ¬ gt y b and (¬ gt b r)
              rw [h]
              by_contra hcon
              rw [Bool.not_eq_false] at hcon
              have := htot _ _ _ hcon (Bool.not_eq_true _ |>.mp hxy)
              rw [hb] at this
              exact Bool.false_ne_true this
            · exact hall z h
  intro l r h
  cases l with
  | nil => simp [firstMaxBy] at h
  | cons x xs =>
      simp only [firstMaxBy, Option.some_inj] at h
      obtain ⟨hmem, hb, hall⟩ := main xs x
      rw [h] at hmem hb hall
      exact ⟨hmem, by
        intro y hy
        rcases List.mem_cons.mp hy with hyx | hyxs
        · rw [hyx]; exact hb
        · exact hall y hyxs⟩

theorem ratGt_irr (a : Rat) : (decide (a > a)) = false := by simp

theorem ratGt_trans (a b c : Rat) (h1 : decide (a > b) = true) (h2 : decide (b > c) = true) :
    decide (a > c) = true := by
  simp only [decide_eq_true_eq] at *
  linarith

theorem ratGt_tot (a b c : Rat) (h1 : decide (a > c) = true) (h2 : decide (a > b) = false) :
    decide (b > c) = true := by
  simp only [decide_eq_true_eq, decide_eq_false_iff_not] at *
  linarith [not_lt.mp h2]

theorem lexGt2_irr (a : Rat × Int) : lexGt2 a a = false := by
  simp [lexGt2]

theorem lexGt2_trans (a b c : Rat × Int)
    (h1 : lexGt2 a b = true) (h2 : lexGt2 b c = true) : lexGt2 a c = true := by
  simp only [lexGt2, Bool.or_eq_true, Bool.and_eq_true, decide_eq_true_eq, beq_iff_eq] at *
  rcases h1 with h1 | ⟨h1e, h1i⟩ <;> rcases h2 with h2 | ⟨h2e, h2i⟩
  · exact Or.inl (by linarith)
  · exact Or.inl (by rw [← h2e]; exact h1)
  · exact Or.inl (by rw [h1e]; exact h2)
  · exact Or.inr ⟨h1e.trans h2e, by omega⟩

theorem lexGt2_tot (a b c : Rat × Int)
    (h1 : lexGt2 a c = true) (h2 : lexGt2 a b = false) : lexGt2 b c = true := by
  simp only [lexGt2, Bool.or_eq_true, Bool.and_eq_true, decide_eq_true_eq, beq_iff_eq,
             Bool.or_eq_false_iff, Bool.and_eq_false_iff, decide_eq_false_iff_not] at *
  obtain ⟨hn1, hn2⟩ := h2
  rcases h1 with h1 | ⟨h1e, h1i⟩
  · exact Or.inl (by linarith [not_lt.mp hn1])
  · have hab : a.1 ≤ b.1 := not_lt.mp hn1
    rcases lt_or_eq_of_le hab with hlt | heq
    · exact Or.inl (by linarith)
    · rcases hn2 with hne | hle
      · exact absurd heq (by simpa using hne)
      · exact Or.inr ⟨by rw [← heq, h1e], by
          have := not_lt.mp hle
          omega⟩

theorem lexGt3_irr (a : Rat × Rat × Int) : lexGt3 a a = false := by
  simp [lexGt3, lexGt2]

theorem lexGt3_trans (a b c : Rat × Rat × Int)
    (h1 : lexGt3 a b = true) (h2 : lexGt3 b c = true) : lexGt3 a c = true := by
  simp only [lexGt3, Bool.or_eq_true, Bool.and_eq_true, decide_eq_true_eq, beq_iff_eq] at *
  rcases h1 with h1 | ⟨h1e, h1i⟩ <;> rcases h2 with h2 | ⟨h2e, h2i⟩
  · exact Or.inl (by linarith)
  · exact Or.inl (by rw [← h2e]; exact h1)
  · exact Or.inl (by rw [h1e]; exact h2)
  · exact Or.inr ⟨h1e.trans h2e, lexGt2_trans _ _ _ h1i h2i⟩

theorem lexGt3_tot (a b c : Rat × Rat × Int)
    (h1 : lexGt3 a c = true) (h2 : lexGt3 a b = false) : lexGt3 b c = true := by
  simp only [lexGt3, Bool.or_eq_true, Bool.and_eq_true, decide_eq_true_eq, beq_iff_eq,
             Bool.or_eq_false_iff, Bool.and_eq_false_iff, decide_eq_false_iff_not] at *
  obtain ⟨hn1, hn2⟩ := h2
  rcases h1 with h1 | ⟨h1e, h1i⟩
  · exact Or.inl (by linarith [not_lt.mp hn1])
  · have hab : a.1 ≤ b.1 := not_lt.mp hn1
    rcases lt_or_eq_of_le hab with hlt | heq
    · exact Or.inl (by linarith)
    · rcases hn2 with hne | hle
      · exact absurd heq (by simpa using hne)
      · exact Or.inr ⟨by rw [← heq, h1e], lexGt2_tot _ _ _ h1i hle⟩

theorem list_eq_map_range_getD {α : Type} [Inhabited α] (l : List α) :
    (List.range l.length).map (fun i => l.getD i default) = l := by
  apply List.ext_getElem
  · simp
  · intro i h1 h2
    simp [List.getD_eq_getElem?_getD, List.getElem?_eq_getElem h2]

/-! ### Phase 2 characterization (C5) -/

/-- The score list Phase 2 computes for one non-leader, spec-side. -/
def phase2Scores (sc : Scorer) (leaders : List TeamMember) (mem : TeamMember) :
    List (String × Rat) :=
  leaders.map (fun l => (l.user_id,
    calculate_categorical_score (sc.memberCats mem.profile_data)
      (sc.memberCats l.profile_data)))

/-- The first-maximum (leader id, score) pair for one non-leader. -/
def phase2Best (sc : Scorer) (leaders : List TeamMember) (mem : TeamMember) :
    Option (String × Rat) :=
  firstMaxBy (fun a b => a > b) (fun p => p.2) (phase2Scores sc leaders mem)

/-- Whether the non-leader joins a team at all (best score at or above the
threshold). -/
def phase2Accepts (sc : Scorer) (cfg : FormationConfig) (leaders : List TeamMember)
    (mem : TeamMember) : Bool :=
  match phase2Best sc leaders mem with
  | some best => decide (cfg.minCategoryScoreThreshold ≤ best.2)
  | none => false

/-- The id of the leader the non-leader is assigned to, if accepted. -/
def phase2BestId (sc : Scorer) (leaders : List TeamMember) (mem : TeamMember) :
    Option String :=
  (phase2Best sc leaders mem).map (fun p => p.1)

/-- The non-leaders of `pool` Phase 2 assigns to leader `l`. -/
def phase2AssignedTo (sc : Scorer) (cfg : FormationConfig) (leaders : List TeamMember)
    (pool : List TeamMember) (l : TeamMember) : List TeamMember :=
  pool.filter (fun m =>
    phase2Accepts sc cfg leaders m && (phase2BestId sc leaders m == some l.user_id))

theorem firstMaxBy_mem {α β : Type} (gt : β → β → Bool) (key : α → β) :
    ∀ (l : List α) (r : α), firstMaxBy gt key l = some r → r ∈ l := by
  have main : ∀ (ys : List α) (b : α),
      (ys.foldl (fun best y => if gt (key y) (key best) then y else best) b) ∈ b :: ys := by
    intro ys
    induction ys with
    | nil => intro b; simp
    | cons y ys ih =>
        intro b
        by_cases h : gt (key y) (key b)
        · simp only [List.foldl_cons, if_pos h]
          rcases List.mem_cons.mp (ih y) with hh | hh
          · simp [hh]
          · simp [hh]
        · simp only [List.foldl_cons, if_neg h]
          rcases List.mem_cons.mp (ih b) with hh | hh
          · simp [hh]
          · simp [hh]
  intro l r h
  cases l with
  | nil => simp [firstMaxBy] at h
  | cons x xs =>
      simp only [firstMaxBy, Option.some_inj] at h
      exact h ▸ main xs x

theorem appendToKey_map {α : Type} (key : α → String) (val : α → List TeamMember)
    (xs : List α) (hnd : (xs.map key).Nodup) (x₀ : α) (hx : x₀ ∈ xs) (m : TeamMember) :
    appendToKey (key x₀) m (xs.map (fun x => (key x, val x))) =
      xs.map (fun x => (key x, if key x = key x₀ then val x ++ [m] else val x)) := by
  induction xs with
  | nil => simp at hx
  | cons y rest ih =>
      simp only [List.map_cons, List.nodup_cons] at hnd
      rcases List.mem_cons.mp hx with h | h
      · subst h
        have hrw : ∀ x ∈ rest,
            (key x, if key x = key x₀ then val x ++ [m] else val x) = (key x, val x) := by
          intro x hxr
          have hne : key x ≠ key x₀ := fun hh =>
            hnd.1 (by rw [← hh]; exact List.mem_map_of_mem key hxr)
          simp [hne]
        simp only [List.map_cons, appendToKey, eq_self_iff_true, if_true]
        congr 1
        exact (List.map_congr_left hrw).symm
      · have hne : key y ≠ key x₀ := by
          intro hh
          exact hnd.1 (by rw [hh]; exact List.mem_map_of_mem key h)
        simp only [List.map_cons, appendToKey, if_neg hne]
        rw [ih hnd.2 h]

theorem firstMaxBy_isSome {α β : Type} (gt : β → β → Bool) (key : α → β) (l : List α)
    (h : l ≠ []) : ∃ r, firstMaxBy gt key l = some r := by
  cases l with
  | nil => exact absurd rfl h
  | cons x xs => exact ⟨_, rfl⟩

theorem phase2LeaderScores_eq (sc : Scorer) (leaders : List TeamMember) (mem : TeamMember)
    (hnd : (leaders.map TeamMember.user_id).Nodup) :
    phase2LeaderScores sc leaders (phase2LeaderCats sc leaders) mem =
      phase2Scores sc leaders mem := by
  unfold phase2LeaderScores phase2LeaderCats phase2Scores
  rw [foldl_dictInsert_eq_map TeamMember.user_id
        (fun l => sc.memberCats l.profile_data) leaders hnd]
  rw [foldl_dictInsert_eq_map TeamMember.user_id
        (fun l => calculate_categorical_score (sc.memberCats mem.profile_data)
          (lookupD (leaders.map (fun l => (l.user_id, sc.memberCats l.profile_data)))
            l.user_id ∅)) leaders hnd]
  apply List.map_congr_left
  intro l hl
  rw [lookupD_map_eq TeamMember.user_id (fun l => sc.memberCats l.profile_data)
        leaders hnd l hl]

theorem phase2Step_state (sc : Scorer) (cfg : FormationConfig) (leaders : List TeamMember)
    (hl : leaders ≠ []) (hnd : (leaders.map TeamMember.user_id).Nodup)
    (P orph0 : List TeamMember) (mem : TeamMember) :
    phase2Step sc cfg leaders (phase2LeaderCats sc leaders)
      (leaders.map (fun l => (l.user_id, l :: phase2AssignedTo sc cfg leaders P l)),
       orph0 ++ P.filter (fun m => !phase2Accepts sc cfg leaders m)) mem =
      (leaders.map (fun l => (l.user_id, l :: phase2AssignedTo sc cfg leaders (P ++ [mem]) l)),
       orph0 ++ (P ++ [mem]).filter (fun m => !phase2Accepts sc cfg leaders m)) := by
  have hscore : phase2Scores sc leaders mem ≠ [] := by
    cases leaders with
    | nil => exact absurd rfl hl
    | cons l ls => simp [phase2Scores]
  obtain ⟨r, hr⟩ := firstMaxBy_isSome (fun a b => decide (a > b))
    (fun p : String × Rat => p.2) (phase2Scores sc leaders mem) hscore
  have hbest : phase2Best sc leaders mem = some r := hr
  unfold phase2Step
  rw [phase2LeaderScores_eq sc leaders mem hnd, hr]
  by_cases hacc : cfg.minCategoryScoreThreshold ≤ r.2
  · -- accepted: the member is appended to the best leader's list
    have haccb : phase2Accepts sc cfg leaders mem = true := by
      simp [phase2Accepts, hbest, hacc]
    have hid : phase2BestId sc leaders mem = some r.1 := by
      simp [phase2BestId, hbest]
    obtain ⟨l₀, hl₀, hr₀⟩ := List.mem_map.mp (firstMaxBy_mem _ _ _ _ hr)
    have hr₁ : r.1 = l₀.user_id := by rw [← hr₀]
    simp only [if_pos hacc, Prod.mk.injEq]
    constructor
    · rw [hr₁]
      rw [appendToKey_map TeamMember.user_id
            (fun l => l :: phase2AssignedTo sc cfg leaders P l) leaders hnd l₀ hl₀ mem]
      apply List.map_congr_left
      intro l hlmem
      simp only [Prod.mk.injEq, true_and]
      have hsplit : phase2AssignedTo sc cfg leaders (P ++ [mem]) l =
          phase2AssignedTo sc cfg leaders P l ++
            List.filter (fun m => phase2Accepts sc cfg leaders m &&
              (phase2BestId sc leaders m == some l.user_id)) [mem] := by
        simp [phase2AssignedTo, List.filter_append]
      by_cases hcase : l.user_id = l₀.user_id
      · have hbeq : (phase2BestId sc leaders mem == some l.user_id) = true := by
          simp [hid, hr₁, hcase]
        have hsingle : List.filter (fun m => phase2Accepts sc cfg leaders m &&
            (phase2BestId sc leaders m == some l.user_id)) [mem] = [mem] := by
          simp [List.filter, haccb, hbeq]
        rw [if_pos hcase, hsplit, hsingle]
        simp
      · have hbeq : (phase2BestId sc leaders mem == some l.user_id) = false := by
          simp [hid, hr₁]
          exact fun hh => hcase hh.symm
        have hempty : List.filter (fun m => phase2Accepts sc cfg leaders m &&
            (phase2BestId sc leaders m == some l.user_id)) [mem] = [] := by
          simp [List.filter, hbeq]
        rw [if_neg hcase, hsplit, hempty]
        simp
    · rw [List.filter_append]
      simp [List.filter, haccb]
  · -- rejected: the member becomes an orphan
    have haccb : phase2Accepts sc cfg leaders mem = false := by
      simp [phase2Accepts, hbest, hacc]
    simp only [if_neg hacc, Prod.mk.injEq]
    constructor
    · apply List.map_congr_left
      intro l hlmem
      simp only [Prod.mk.injEq, true_and]
      have hsplit : phase2AssignedTo sc cfg leaders (P ++ [mem]) l =
          phase2AssignedTo sc cfg leaders P l ++
            List.filter (fun m => phase2Accepts sc cfg leaders m &&
              (phase2BestId sc leaders m == some l.user_id)) [mem] := by
        simp [phase2AssignedTo, List.filter_append]
      have hempty : List.filter (fun m => phase2Accepts sc cfg leaders m &&
          (phase2BestId sc leaders m == some l.user_id)) [mem] = [] := by
        simp [List.filter, haccb]
      simp [hsplit, hempty]
    · rw [List.filter_append]
      simp [List.filter, haccb]

theorem phase2_foldl_state (sc : Scorer) (cfg : FormationConfig) (leaders : List TeamMember)
    (hl : leaders ≠ []) (hnd : (leaders.map TeamMember.user_id).Nodup)
    (orph0 : List TeamMember) :
    ∀ (pool P : List TeamMember),
      pool.foldl (phase2Step sc cfg leaders (phase2LeaderCats sc leaders))
        (leaders.map (fun l => (l.user_id, l :: phase2AssignedTo sc cfg leaders P l)),
         orph0 ++ P.filter (fun m => !phase2Accepts sc cfg leaders m)) =
      (leaders.map (fun l =>
         (l.user_id, l :: phase2AssignedTo sc cfg leaders (P ++ pool) l)),
       orph0 ++ (P ++ pool).filter (fun m => !phase2Accepts sc cfg leaders m)) := by
  intro pool
  induction pool with
  | nil => intro P; simp
  | cons mem rest ih =>
      intro P
      simp only [List.foldl_cons]
      rw [phase2Step_state sc cfg leaders hl hnd P orph0 mem]
      rw [ih (P ++ [mem])]
      simp

/-- The characterization of Phase 2 on one timezone group. -/
theorem processGroup_spec (sc : Scorer) (cfg : FormationConfig) (members : List TeamMember)
    (hnd : (members.map TeamMember.user_id).Nodup) :
    (members.filter (fun m => m.is_leader) = [] →
       processGroup sc cfg members = ([], members)) ∧
    (members.filter (fun m => m.is_leader) ≠ [] →
       processGroup sc cfg members =
         ((members.filter (fun m => m.is_leader)).map (fun l =>
            phase2MkTeam (l :: phase2AssignedTo sc cfg
              (members.filter (fun m => m.is_leader))
              (members.filter (fun m => !m.is_leader)) l)),
          (members.filter (fun m => !m.is_leader)).filter
            (fun m => !phase2Accepts sc cfg (members.filter (fun m => m.is_leader)) m))) := by
  set leaders := members.filter (fun m => m.is_leader) with hleaders
  have hndl : (leaders.map TeamMember.user_id).Nodup :=
    ((List.filter_sublist members).map TeamMember.user_id).nodup hnd
  constructor
  · intro h
    simp [processGroup, ← hleaders, h]
  · intro h
    have hinit : leaders.foldl (fun d l => dictInsert l.user_id [l] d) [] =
        leaders.map (fun l => (l.user_id, l :: phase2AssignedTo sc cfg leaders [] l)) := by
      rw [foldl_dictInsert_eq_map TeamMember.user_id (fun l => [l]) leaders hndl]
      apply List.map_congr_left
      intro l _
      simp [phase2AssignedTo]
    unfold processGroup
    rw [← hleaders]
    rw [if_neg h]
    simp only [hinit]
    have := phase2_foldl_state sc cfg leaders h hndl []
      (members.filter (fun m => !m.is_leader)) []
    simp only [List.nil_append, List.filter_nil] at this
    rw [this]
    simp

/-- A concrete scorer used by witnesses: structured categories straight from
the goals list, and a deterministic stand-in for the semantic oracle. -/
def exampleScorer : Scorer where
  memberCats pd := pd.goals.toFinset
  semCompat p1 p2 := (((7 * p1.goals.length + 3 * p2.habits.length) % 10 : Nat) : Rat) / 10

/-- **C5.** Phase 2 on one timezone group: with no leader present every
member of the group is orphaned; otherwise each non-leader is scored with
`categorical_score` against every leader, joins the first best-scoring leader
exactly when the best score reaches the category threshold and is orphaned
otherwise, the chosen score being a maximum over all leaders; and every
leader seeds its own team — a singleton team when it attracts nobody. -/
theorem C5_phase2_assignment (sc : Scorer) (cfg : FormationConfig)
    (members : List TeamMember) (hnd : (members.map TeamMember.user_id).Nodup) :
    (members.filter (fun m => m.is_leader) = [] →
       processGroup sc cfg members = ([], members)) ∧
    (members.filter (fun m => m.is_leader) ≠ [] →
       processGroup sc cfg members =
         ((members.filter (fun m => m.is_leader)).map (fun l =>
            phase2MkTeam (l :: phase2AssignedTo sc cfg
              (members.filter (fun m => m.is_leader))
              (members.filter (fun m => !m.is_leader)) l)),
          (members.filter (fun m => !m.is_leader)).filter
            (fun m => !phase2Accepts sc cfg (members.filter (fun m => m.is_leader)) m))) ∧
    (∀ m r, phase2Best sc (members.filter (fun m => m.is_leader)) m = some r →
       r ∈ phase2Scores sc (members.filter (fun m => m.is_leader)) m ∧
       ∀ p ∈ phase2Scores sc (members.filter (fun m => m.is_leader)) m, p.2 ≤ r.2) := by
  obtain ⟨h1, h2⟩ := processGroup_spec sc cfg members hnd
  refine ⟨h1, h2, ?_⟩
  intro m r hr
  have := firstMaxBy_spec (fun a b : Rat => decide (a > b)) (fun p : String × Rat => p.2)
    ratGt_irr ratGt_trans ratGt_tot _ r hr
  exact ⟨this.1, fun p hp => by
    have h := this.2 p hp
    simpa using h⟩

/-- Witness for C5 at a concrete leaderless group: both members are orphaned
and no team is formed. -/
theorem C5_phase2_assignment_witness :
    processGroup exampleScorer {} [⟨"u1", "a", "A", "Team Member", {}⟩,
      ⟨"u2", "b", "B", "Team Member", {}⟩] =
      ([], [⟨"u1", "a", "A", "Team Member", {}⟩, ⟨"u2", "b", "B", "Team Member", {}⟩]) :=
  (C5_phase2_assignment exampleScorer {} _ (by decide)).1 (by decide)

/-! ### Phase 3 characterization (C6) -/

/-- The mean semantic compatibility of the member with id `uid` to all the
*other* members of the team (the spec's notion: sum over the `n-1` others
divided by `n-1`; the matrix diagonal is zero, so the full row sum is that
sum). -/
def meanToOthersById (sc : Scorer) (ms : List TeamMember) (uid : String) : Rat :=
  lookupD ((List.range ms.length).map (fun i =>
    ((ms.getD i default).user_id, rowSum sc ms i / ((ms.length : Rat) - 1)))) uid 0

theorem range_map_uid (ms : List TeamMember) :
    (List.range ms.length).map (fun i => (ms.getD i default).user_id) =
      ms.map TeamMember.user_id := by
  conv_rhs => rw [← list_eq_map_range_getD ms]
  rw [List.map_map]
  rfl

theorem meanToOthersById_at (sc : Scorer) (ms : List TeamMember)
    (hnd : (ms.map TeamMember.user_id).Nodup) (i : Nat) (hi : i < ms.length) :
    meanToOthersById sc ms (ms.getD i default).user_id =
      rowSum sc ms i / ((ms.length : Rat) - 1) := by
  unfold meanToOthersById
  have hk : ((List.range ms.length).map (fun i => (ms.getD i default).user_id)).Nodup := by
    rw [range_map_uid]; exact hnd
  exact lookupD_map_eq (fun i => (ms.getD i default).user_id)
    (fun i => rowSum sc ms i / ((ms.length : Rat) - 1)) _ hk i (by simpa using hi) 0

theorem optimize_avg_scores (sc : Scorer) (ms : List TeamMember)
    (hnd : (ms.map TeamMember.user_id).Nodup) (i : Nat) (hi : i < ms.length) :
    lookupD ((List.range ms.length).foldl
        (fun d i => dictInsert (ms.getD i default).user_id (rowMean sc ms i) d) [])
      (ms.getD i default).user_id 0 = rowMean sc ms i := by
  have hk : ((List.range ms.length).map (fun i => (ms.getD i default).user_id)).Nodup := by
    rw [range_map_uid]; exact hnd
  rw [foldl_dictInsert_eq_map (fun i => (ms.getD i default).user_id)
        (fun i => rowMean sc ms i) _ hk]
  exact lookupD_map_eq (fun i => (ms.getD i default).user_id)
    (fun i => rowMean sc ms i) _ hk i (by simpa using hi) 0

/-- The sort key Phase 3a uses: `avg_scores[m.user_id]`. -/
def optKey (sc : Scorer) (ms : List TeamMember) (m : TeamMember) : Rat :=
  lookupD ((List.range ms.length).foldl
      (fun d i => dictInsert (ms.getD i default).user_id (rowMean sc ms i) d) [])
    m.user_id 0

/-- The stable descending order of the non-leaders by `avg_scores`. -/
def optSorted (sc : Scorer) (team : Team) : List TeamMember :=
  sortDescBy (optKey sc team.memberList) (team.memberList.filter (fun m => !m.is_leader))

/-- `slots_for_members = max_team_size - len(leaders)`. -/
def optSlots (cfg : FormationConfig) (team : Team) : Int :=
  (cfg.maxTeamSize : Int) - ((team.memberList.filter (fun m => m.is_leader)).length : Int)

theorem optimize_eq (sc : Scorer) (cfg : FormationConfig) (team : Team) :
    optimize_oversized_team sc cfg team =
      ({ team with members := dictOfMembers (team.memberList.filter (fun m => m.is_leader) ++ pyTake (optSlots cfg team) (optSorted sc team)) },
       pyDrop (optSlots cfg team) (optSorted sc team)) := rfl

theorem pyTake_sublist {α : Type} (k : Int) (xs : List α) : (pyTake k xs).Sublist xs := by
  unfold pyTake
  split <;> exact List.take_sublist _ _

theorem pyTake_append_pyDrop {α : Type} (k : Int) (xs : List α) :
    pyTake k xs ++ pyDrop k xs = xs := by
  unfold pyTake pyDrop
  split <;> exact List.take_append_drop _ _

theorem pyTake_nonneg {α : Type} (k : Int) (hk : 0 ≤ k) (xs : List α) :
    pyTake k xs = xs.take k.toNat := by simp [pyTake, hk]

theorem pyDrop_nonneg {α : Type} (k : Int) (hk : 0 ≤ k) (xs : List α) :
    pyDrop k xs = xs.drop k.toNat := by simp [pyDrop, hk]

theorem memberList_mk (team : Team) (d : List (String × TeamMember)) :
    (Team.memberList { team with members := d }) = d.map (fun p => p.2) := rfl

theorem C6_setup (sc : Scorer) (team : Team)
    (hnd : (team.memberList.map TeamMember.user_id).Nodup) :
    List.Perm (team.memberList.filter (fun m => m.is_leader) ++ optSorted sc team)
        team.memberList ∧
    ((team.memberList.filter (fun m => m.is_leader) ++ optSorted sc team).map
        TeamMember.user_id).Nodup := by
  have hperm : List.Perm (team.memberList.filter (fun m => m.is_leader) ++ optSorted sc team)
      team.memberList := by
    have h1 := sortDescBy_perm (optKey sc team.memberList)
      (team.memberList.filter (fun m => !m.is_leader))
    have h2 := List.filter_append_perm (fun m => m.is_leader) team.memberList
    exact (h1.append_left _).trans h2
  exact ⟨hperm, ((hperm.map TeamMember.user_id).nodup_iff).mpr hnd⟩

theorem C6_kept_eq (sc : Scorer) (cfg : FormationConfig) (team : Team)
    (hnd : (team.memberList.map TeamMember.user_id).Nodup) :
    (optimize_oversized_team sc cfg team).1.memberList =
      team.memberList.filter (fun m => m.is_leader) ++
        pyTake (optSlots cfg team) (optSorted sc team) := by
  obtain ⟨hperm, hndk⟩ := C6_setup sc team hnd
  have hsub : ((team.memberList.filter (fun m => m.is_leader) ++
      pyTake (optSlots cfg team) (optSorted sc team)).map TeamMember.user_id).Nodup := by
    refine List.Sublist.nodup (List.Sublist.map TeamMember.user_id ?_) hndk
    exact (pyTake_sublist _ _).append_left _
  rw [optimize_eq, memberList_mk, dictOfMembers_eq_map _ hsub]
  simp [List.map_map, Function.comp_def]

/-- **C6.** Phase 3a: the symmetric zero-diagonal pairwise compatibility
matrix yields per-member means; every leader is kept unconditionally; the
non-leaders with the highest means are kept up to `max_team_size -
leader_count` and the rest are evicted; with distinct means, every evicted
non-leader has a strictly lower mean compatibility to the other members than
every kept non-leader; a team of `n` members with at most `max` leaders ends
with `min max n` members and `n - min max n` orphans (so 15 members, one
leader and `max = 12` give a team of 12 and 3 evictees). -/
theorem C6_phase3_eviction (sc : Scorer) (cfg : FormationConfig) (team : Team)
    (hnd : (team.memberList.map TeamMember.user_id).Nodup) :
    (∀ m ∈ team.memberList, m.is_leader = true →
       m ∈ (optimize_oversized_team sc cfg team).1.memberList) ∧
    ((team.memberList.filter (fun m => m.is_leader)).length ≤ cfg.maxTeamSize →
       (optimize_oversized_team sc cfg team).1.members.length =
           min cfg.maxTeamSize team.memberList.length ∧
       (optimize_oversized_team sc cfg team).2.length =
           team.memberList.length - min cfg.maxTeamSize team.memberList.length) ∧
    (2 ≤ team.memberList.length →
     (team.memberList.filter (fun m => m.is_leader)).length ≤ cfg.maxTeamSize →
     (∀ m₁ ∈ team.memberList, ∀ m₂ ∈ team.memberList, m₁.is_leader = false →
        m₂.is_leader = false → m₁ ≠ m₂ →
        meanToOthersById sc team.memberList m₁.user_id ≠
          meanToOthersById sc team.memberList m₂.user_id) →
     ∀ o ∈ (optimize_oversized_team sc cfg team).2,
       ∀ k ∈ (optimize_oversized_team sc cfg team).1.memberList, k.is_leader = false →
         meanToOthersById sc team.memberList o.user_id <
           meanToOthersById sc team.memberList k.user_id) := by
  obtain ⟨hperm, hndk⟩ := C6_setup sc team hnd
  have hkept := C6_kept_eq sc cfg team hnd
  have hsortperm : List.Perm (optSorted sc team) (team.memberList.filter (fun m => !m.is_leader)) :=
    sortDescBy_perm _ _
  refine ⟨?_, ?_, ?_⟩
  · -- (a) leaders are never evicted
    intro m hm hl
    rw [hkept]
    exact List.mem_append.mpr (Or.inl (List.mem_filter.mpr ⟨hm, by simp [hl]⟩))
  · -- (b) sizes
    intro hL
    have hslots : (0 : Int) ≤ optSlots cfg team := by
      simp only [optSlots]
      omega
    have htoNat : (optSlots cfg team).toNat =
        cfg.maxTeamSize - (team.memberList.filter (fun m => m.is_leader)).length := by
      simp only [optSlots]
      omega
    have hsortlen : (optSorted sc team).length = (team.memberList.filter (fun m => !m.is_leader)).length :=
      hsortperm.length_eq
    have hsplitlen : (team.memberList.filter (fun m => m.is_leader)).length +
        (team.memberList.filter (fun m => !m.is_leader)).length = team.memberList.length := by
      have := (List.filter_append_perm (fun m => m.is_leader) team.memberList).length_eq
      simpa using this
    have hkeptlen : (optimize_oversized_team sc cfg team).1.members.length =
        (team.memberList.filter (fun m => m.is_leader)).length +
          min (cfg.maxTeamSize - (team.memberList.filter (fun m => m.is_leader)).length)
            (team.memberList.filter (fun m => !m.is_leader)).length := by
      have hsub : ((team.memberList.filter (fun m => m.is_leader) ++
          pyTake (optSlots cfg team) (optSorted sc team)).map TeamMember.user_id).Nodup := by
        refine List.Sublist.nodup (List.Sublist.map TeamMember.user_id ?_) hndk
        exact (pyTake_sublist _ _).append_left _
      rw [optimize_eq]
      show (dictOfMembers _).length = _
      rw [dictOfMembers_eq_map _ hsub]
      rw [List.length_map, List.length_append, pyTake_nonneg _ hslots, List.length_take,
          htoNat, hsortlen]
    constructor
    · rw [hkeptlen]; omega
    · rw [optimize_eq]
      show (pyDrop (optSlots cfg team) (optSorted sc team)).length = _
      rw [pyDrop_nonneg _ hslots, List.length_drop, htoNat, hsortlen]
      omega
  · -- (c) eviction optimality under distinct means
    intro hn2 hL htie o ho k hk hknl
    rw [hkept] at hk
    have hslots : (0 : Int) ≤ optSlots cfg team := by
      simp only [optSlots]; omega
    rw [optimize_eq] at ho
    have ho' : o ∈ (optSorted sc team).drop (optSlots cfg team).toNat := by
      rw [← pyDrop_nonneg _ hslots]
      exact ho
    have hk' : k ∈ (optSorted sc team).take (optSlots cfg team).toNat := by
      rcases List.mem_append.mp hk with h | h
      · exact absurd (List.mem_filter.mp h).2 (by simp [hknl])
      · rw [← pyTake_nonneg _ hslots]; exact h
    -- key order from sortedness
    have hsorted := sortDescBy_sorted (optKey sc team.memberList) (team.memberList.filter (fun m => !m.is_leader))
    have hkey_le : optKey sc team.memberList o ≤ optKey sc team.memberList k :=
      sorted_take_drop_le (optKey sc team.memberList) (optSorted sc team) (optSlots cfg team).toNat
        hsorted k hk' o ho'
    -- membership in the original list and indices
    have honl : o ∈ team.memberList.filter (fun m => !m.is_leader) :=
      hsortperm.subset (List.drop_subset _ _ ho')
    have hknl' : k ∈ team.memberList.filter (fun m => !m.is_leader) :=
      hsortperm.subset (List.take_subset _ _ hk')
    have homs : o ∈ team.memberList := List.mem_of_mem_filter honl
    have hkms : k ∈ team.memberList := List.mem_of_mem_filter hknl'
    obtain ⟨io, hio, heqo⟩ := List.getElem_of_mem homs
    obtain ⟨ik, hik, heqk⟩ := List.getElem_of_mem hkms
    have hgetDo : team.memberList.getD io default = o := by simp [List.getD_eq_getElem?_getD,
      List.getElem?_eq_getElem hio, heqo]
    have hgetDk : team.memberList.getD ik default = k := by simp [List.getD_eq_getElem?_getD,
      List.getElem?_eq_getElem hik, heqk]
    have hkeyo : optKey sc team.memberList o = rowMean sc team.memberList io := by
      rw [show optKey sc team.memberList o = lookupD ((List.range team.memberList.length).foldl
          (fun d i => dictInsert (team.memberList.getD i default).user_id (rowMean sc team.memberList i) d) [])
          (team.memberList.getD io default).user_id 0 from by rw [hgetDo]; rfl]
      exact optimize_avg_scores sc team.memberList hnd io hio
    have hkeyk : optKey sc team.memberList k = rowMean sc team.memberList ik := by
      rw [show optKey sc team.memberList k = lookupD ((List.range team.memberList.length).foldl
          (fun d i => dictInsert (team.memberList.getD i default).user_id (rowMean sc team.memberList i) d) [])
          (team.memberList.getD ik default).user_id 0 from by rw [hgetDk]; rfl]
      exact optimize_avg_scores sc team.memberList hnd ik hik
    have hmeano : meanToOthersById sc team.memberList o.user_id =
        rowSum sc team.memberList io / ((team.memberList.length : Rat) - 1) := by
      rw [show o.user_id = (team.memberList.getD io default).user_id from by rw [hgetDo]]
      exact meanToOthersById_at sc team.memberList hnd io hio
    have hmeank : meanToOthersById sc team.memberList k.user_id =
        rowSum sc team.memberList ik / ((team.memberList.length : Rat) - 1) := by
      rw [show k.user_id = (team.memberList.getD ik default).user_id from by rw [hgetDk]]
      exact meanToOthersById_at sc team.memberList hnd ik hik
    -- o and k are distinct elements
    have hone : o ≠ k := by
      intro he
      have hndsort : (optSorted sc team).Nodup := by
        refine (hsortperm.nodup_iff).mpr ?_
        exact List.Nodup.of_map TeamMember.user_id
          (List.Sublist.nodup (List.Sublist.map TeamMember.user_id
            (List.filter_sublist team.memberList)) hnd)
      have hdisj := List.disjoint_take_drop hndsort
        (le_refl (optSlots cfg team).toNat)
      exact hdisj hk' (he ▸ ho')
    have hne : meanToOthersById sc team.memberList o.user_id ≠ meanToOthersById sc team.memberList k.user_id := by
      refine htie o homs k hkms ?_ ?_ hone
      · simpa using (List.mem_filter.mp honl).2
      · simpa using (List.mem_filter.mp hknl').2
    -- transfer to rowSum and back
    have hn : (0 : Rat) < (team.memberList.length : Rat) := by
      have : (0 : Nat) < team.memberList.length := by omega
      exact_mod_cast this
    have hn1 : (0 : Rat) < (team.memberList.length : Rat) - 1 := by
      have : (1 : Nat) < team.memberList.length := by omega
      have hcast : (1 : Rat) < (team.memberList.length : Rat) := by exact_mod_cast this
      linarith
    have hrow_le : rowSum sc team.memberList io ≤ rowSum sc team.memberList ik := by
      have := hkey_le
      rw [hkeyo, hkeyk, rowMean, rowMean] at this
      exact (div_le_div_iff_of_pos_right hn).mp this
    have hrow_ne : rowSum sc team.memberList io ≠ rowSum sc team.memberList ik := by
      intro he
      exact hne (by rw [hmeano, hmeank, he])
    rw [hmeano, hmeank]
    exact div_lt_div_of_pos_right (lt_of_le_of_ne hrow_le hrow_ne) hn1

/-- A 15-member team with a single leader, for the C6 witness. -/
def exTeam15 : Team :=
  { team_role := "Team X", channel_name := "x",
    members := (List.range 15).map (fun i =>
      ("m" ++ toString i,
       { user_id := "m" ++ toString i, username := "u", display_name := "d",
         role_title := if i = 0 then "Team Leader" else "Team Member",
         profile_data := { goals := ["g"], habits := List.replicate (i % 4) "h" } })) }

/-- Witness for C6: the 15-member, one-leader team is trimmed to exactly 12
members with exactly 3 evictees under the default `max_team_size = 12`. -/
theorem C6_phase3_eviction_witness :
    (optimize_oversized_team exampleScorer {} exTeam15).1.members.length = 12 ∧
    (optimize_oversized_team exampleScorer {} exTeam15).2.length = 3 := by
  have h := (C6_phase3_eviction exampleScorer {} exTeam15 (by decide)).2.1 (by decide)
  constructor
  · rw [h.1]; decide
  · rw [h.2]; decide

/-! ### Phase 4 characterization (C7) -/

theorem candidatesFor_mem (sc : Scorer) (cfg : FormationConfig) (teams : List Team)
    (orphan : TeamMember) (c : Candidate) (h : c ∈ candidatesFor sc cfg teams orphan) :
    c.team_idx < teams.length ∧
    (teams.getD c.team_idx default).members.length < cfg.maxTeamSize ∧
    (teams.getD c.team_idx default).get_leaders ≠ [] ∧
    c.size = (teams.getD c.team_idx default).members.length ∧
    c.tz_score = (calculate_member_team_fit sc orphan.profile_data
        (teams.getD c.team_idx default).get_leaders).tz_score ∧
    c.cat_score = (calculate_member_team_fit sc orphan.profile_data
        (teams.getD c.team_idx default).get_leaders).cat_score := by
  obtain ⟨i, hi, hf⟩ := List.mem_filterMap.mp h
  have hirange : i < teams.length := List.mem_range.mp hi
  dsimp only at hf
  split at hf
  · exact absurd hf (by simp)
  · split at hf
    · exact absurd hf (by simp)
    · rename_i h1 h2
      have hc : c = ⟨i, (teams.getD i default).members.length,
          (calculate_member_team_fit sc orphan.profile_data
            (teams.getD i default).get_leaders).tz_score,
          (calculate_member_team_fit sc orphan.profile_data
            (teams.getD i default).get_leaders).cat_score⟩ :=
        (Option.some_inj.mp hf).symm
      subst hc
      refine ⟨hirange, ?_, h2, rfl, rfl, rfl⟩
      show (teams.getD i default).members.length < cfg.maxTeamSize
      omega

theorem candidatesFor_exists (sc : Scorer) (cfg : FormationConfig) (teams : List Team)
    (orphan : TeamMember) (i : Nat) (hi : i < teams.length)
    (h1 : (teams.getD i default).members.length < cfg.maxTeamSize)
    (h2 : (teams.getD i default).get_leaders ≠ []) :
    ∃ c ∈ candidatesFor sc cfg teams orphan, c.team_idx = i := by
  refine ⟨⟨i, (teams.getD i default).members.length,
    (calculate_member_team_fit sc orphan.profile_data
      (teams.getD i default).get_leaders).tz_score,
    (calculate_member_team_fit sc orphan.profile_data
      (teams.getD i default).get_leaders).cat_score⟩, ?_, rfl⟩
  apply List.mem_filterMap.mpr
  refine ⟨i, List.mem_range.mpr hi, ?_⟩
  have h1' : ¬ cfg.maxTeamSize ≤ (teams.getD i default).members.length := by omega
  dsimp only
  rw [if_neg h1', if_neg h2]

theorem chooseTeam_unfold (cfg : FormationConfig) (cands : List Candidate)
    (hne : cands ≠ []) :
    chooseTeam cfg cands =
      (if cands.filter (fun c => cfg.minTimezoneScoreThreshold ≤ c.tz_score) ≠ [] then
         firstMaxBy lexGt2 (fun c => (c.cat_score, -(c.size : Int)))
           (cands.filter (fun c => cfg.minTimezoneScoreThreshold ≤ c.tz_score))
       else
         firstMaxBy lexGt3 (fun c => (c.tz_score, c.cat_score, -(c.size : Int))) cands).map
        (fun c => c.team_idx) := by
  unfold chooseTeam
  rw [if_neg hne]

theorem chooseTeam_none_iff (cfg : FormationConfig) (cands : List Candidate) :
    chooseTeam cfg cands = none ↔ cands = [] := by
  constructor
  · intro h
    by_contra hne
    rw [chooseTeam_unfold cfg cands hne] at h
    by_cases hp : cands.filter (fun c => cfg.minTimezoneScoreThreshold ≤ c.tz_score) ≠ []
    · rw [if_pos hp] at h
      obtain ⟨r, hr⟩ := firstMaxBy_isSome lexGt2
        (fun c : Candidate => (c.cat_score, -(c.size : Int))) _ hp
      simp [hr] at h
    · rw [if_neg hp] at h
      obtain ⟨r, hr⟩ := firstMaxBy_isSome lexGt3
        (fun c : Candidate => (c.tz_score, c.cat_score, -(c.size : Int))) cands hne
      simp [hr] at h
  · intro h
    simp [chooseTeam, h]

theorem chooseTeam_spec (cfg : FormationConfig) (cands : List Candidate)
    (hne : cands ≠ []) :
    ∃ c ∈ cands, chooseTeam cfg cands = some c.team_idx ∧
      ((cands.filter (fun c => cfg.minTimezoneScoreThreshold ≤ c.tz_score) ≠ [] →
          c ∈ cands.filter (fun c => cfg.minTimezoneScoreThreshold ≤ c.tz_score) ∧
          ∀ c' ∈ cands.filter (fun c => cfg.minTimezoneScoreThreshold ≤ c.tz_score),
            lexGt2 (c'.cat_score, -(c'.size : Int)) (c.cat_score, -(c.size : Int)) = false) ∧
       (cands.filter (fun c => cfg.minTimezoneScoreThreshold ≤ c.tz_score) = [] →
          ∀ c' ∈ cands,
            lexGt3 (c'.tz_score, c'.cat_score, -(c'.size : Int))
              (c.tz_score, c.cat_score, -(c.size : Int)) = false)) := by
  rw [chooseTeam_unfold cfg cands hne]
  by_cases hp : cands.filter (fun c => cfg.minTimezoneScoreThreshold ≤ c.tz_score) ≠ []
  · rw [if_pos hp]
    obtain ⟨r, hr⟩ := firstMaxBy_isSome lexGt2
      (fun c : Candidate => (c.cat_score, -(c.size : Int))) _ hp
    obtain ⟨hmem, hmax⟩ := firstMaxBy_spec lexGt2
      (fun c : Candidate => (c.cat_score, -(c.size : Int)))
      lexGt2_irr lexGt2_trans lexGt2_tot _ r hr
    refine ⟨r, List.mem_of_mem_filter hmem, by simp [hr], ?_, ?_⟩
    · intro _
      refine ⟨hmem, ?_⟩
      intro c' hc'
      simpa using hmax c' hc'
    · intro hcontra
      exact absurd hcontra hp
  · rw [if_neg hp]
    obtain ⟨r, hr⟩ := firstMaxBy_isSome lexGt3
      (fun c : Candidate => (c.tz_score, c.cat_score, -(c.size : Int))) cands hne
    obtain ⟨hmem, hmax⟩ := firstMaxBy_spec lexGt3
      (fun c : Candidate => (c.tz_score, c.cat_score, -(c.size : Int)))
      lexGt3_irr lexGt3_trans lexGt3_tot _ r hr
    refine ⟨r, hmem, by simp [hr], ?_, ?_⟩
    · intro hcontra
      exact absurd hcontra (by simpa using hp)
    · intro _ c' hc'
      simpa using hmax c' hc'

theorem fit_tz_zero (sc : Scorer) (pd : ProfileData) (ls : List TeamMember)
    (hpd : parse_to_utc_offset pd.timezone = none) :
    (calculate_member_team_fit sc pd ls).tz_score = 0 := by
  unfold calculate_member_team_fit
  by_cases h : ls = []
  · simp [h]
  · rw [if_neg h]
    have hmap : (ls.map (fun l => calculate_compatibility (parse_to_utc_offset pd.timezone)
        (parse_to_utc_offset l.profile_data.timezone))) = ls.map (fun _ => (0 : Rat)) := by
      apply List.map_congr_left
      intro l _
      rw [hpd]
      rfl
    dsimp only
    rw [hmap]
    simp

theorem candidatesFor_eq_nil_iff (sc : Scorer) (cfg : FormationConfig) (teams : List Team)
    (orphan : TeamMember) :
    candidatesFor sc cfg teams orphan = [] ↔
      ∀ i < teams.length, cfg.maxTeamSize ≤ (teams.getD i default).members.length ∨
        (teams.getD i default).get_leaders = [] := by
  constructor
  · intro h i hi
    by_contra hcon
    push_neg at hcon
    obtain ⟨c, hc, _⟩ := candidatesFor_exists sc cfg teams orphan i hi
      (by omega) hcon.2
    rw [h] at hc
    exact absurd hc (List.not_mem_nil c)
  · intro h
    by_contra hne
    obtain ⟨c, hc⟩ := List.exists_mem_of_ne_nil _ hne
    obtain ⟨h1, h2, h3, _⟩ := candidatesFor_mem sc cfg teams orphan c hc
    rcases h c.team_idx h1 with hh | hh
    · omega
    · exact h3 hh

/-- **C7.** Phase 4: an orphan with no candidate team (every team full or
leaderless) stays unassigned and the team list is unchanged; otherwise the
orphan goes to a candidate — one meeting the timezone threshold that
maximizes `(cat_score, smallest size)` when any candidate meets it, else one
maximizing `(tz_score, cat_score, smallest size)` over all candidates — and
the updated team list is what the remaining orphans are processed against;
candidates are exactly the teams below `max_team_size` with at least one
leader, scored by `calculate_member_team_fit`; an orphan whose timezone does
not parse scores 0 against every candidate, so with a positive threshold it
is always placed by the Tier-2 rule. -/
theorem C7_phase4_tiered_reassignment (sc : Scorer) (cfg : FormationConfig) :
    (∀ teams, reassign_orphans sc cfg [] teams = (teams, [])) ∧
    (∀ o os teams i, chooseTeam cfg (candidatesFor sc cfg teams o) = some i →
       reassign_orphans sc cfg (o :: os) teams =
         reassign_orphans sc cfg os (placeOrphan teams i o)) ∧
    (∀ o os teams, candidatesFor sc cfg teams o = [] →
       reassign_orphans sc cfg (o :: os) teams =
         ((reassign_orphans sc cfg os teams).1,
          o :: (reassign_orphans sc cfg os teams).2)) ∧
    (∀ teams orphan, candidatesFor sc cfg teams orphan = [] ↔
       ∀ i < teams.length, cfg.maxTeamSize ≤ (teams.getD i default).members.length ∨
         (teams.getD i default).get_leaders = []) ∧
    (∀ teams orphan (c : Candidate), c ∈ candidatesFor sc cfg teams orphan →
       c.team_idx < teams.length ∧
       (teams.getD c.team_idx default).members.length < cfg.maxTeamSize ∧
       (teams.getD c.team_idx default).get_leaders ≠ [] ∧
       c.size = (teams.getD c.team_idx default).members.length ∧
       c.tz_score = (calculate_member_team_fit sc orphan.profile_data
           (teams.getD c.team_idx default).get_leaders).tz_score ∧
       c.cat_score = (calculate_member_team_fit sc orphan.profile_data
           (teams.getD c.team_idx default).get_leaders).cat_score) ∧
    (∀ teams orphan, candidatesFor sc cfg teams orphan ≠ [] →
       ∃ c ∈ candidatesFor sc cfg teams orphan,
         chooseTeam cfg (candidatesFor sc cfg teams orphan) = some c.team_idx ∧
         (((candidatesFor sc cfg teams orphan).filter
              (fun c => cfg.minTimezoneScoreThreshold ≤ c.tz_score) ≠ [] →
             c ∈ (candidatesFor sc cfg teams orphan).filter
                (fun c => cfg.minTimezoneScoreThreshold ≤ c.tz_score) ∧
             ∀ c' ∈ (candidatesFor sc cfg teams orphan).filter
                (fun c => cfg.minTimezoneScoreThreshold ≤ c.tz_score),
               lexGt2 (c'.cat_score, -(c'.size : Int)) (c.cat_score, -(c.size : Int)) = false) ∧
          ((candidatesFor sc cfg teams orphan).filter
              (fun c => cfg.minTimezoneScoreThreshold ≤ c.tz_score) = [] →
             ∀ c' ∈ candidatesFor sc cfg teams orphan,
               lexGt3 (c'.tz_score, c'.cat_score, -(c'.size : Int))
                 (c.tz_score, c.cat_score, -(c.size : Int)) = false))) ∧
    (∀ teams orphan, parse_to_utc_offset orphan.profile_data.timezone = none →
       (∀ c ∈ candidatesFor sc cfg teams orphan, c.tz_score = 0) ∧
       (0 < cfg.minTimezoneScoreThreshold →
          (candidatesFor sc cfg teams orphan).filter
            (fun c => cfg.minTimezoneScoreThreshold ≤ c.tz_score) = []) ∧
       (candidatesFor sc cfg teams orphan ≠ [] →
          ∃ i, chooseTeam cfg (candidatesFor sc cfg teams orphan) = some i)) := by
  have htzzero : ∀ teams (orphan : TeamMember),
      parse_to_utc_offset orphan.profile_data.timezone = none →
      ∀ c ∈ candidatesFor sc cfg teams orphan, c.tz_score = 0 := by
    intro teams orphan hparse c hc
    obtain ⟨_, _, _, _, htz, _⟩ := candidatesFor_mem sc cfg teams orphan c hc
    rw [htz, fit_tz_zero sc orphan.profile_data _ hparse]
  refine ⟨fun teams => rfl, ?_, ?_, ?_, ?_, ?_, ?_⟩
  · intro o os teams i h
    simp only [reassign_orphans, h]
  · intro o os teams h
    have hnone : chooseTeam cfg (candidatesFor sc cfg teams o) = none :=
      (chooseTeam_none_iff cfg _).mpr h
    simp only [reassign_orphans, hnone]
  · exact candidatesFor_eq_nil_iff sc cfg
  · exact candidatesFor_mem sc cfg
  · intro teams orphan hne
    exact chooseTeam_spec cfg _ hne
  · intro teams orphan hparse
    refine ⟨htzzero teams orphan hparse, ?_, ?_⟩
    · intro hpos
      apply List.filter_eq_nil_iff.mpr
      intro c hc
      rw [htzzero teams orphan hparse c hc]
      simp
      linarith
    · intro hne
      rcases hopt : chooseTeam cfg (candidatesFor sc cfg teams orphan) with _ | i
      · exact absurd ((chooseTeam_none_iff cfg _).mp hopt) hne
      · exact ⟨i, rfl⟩

/-- Witness for C7: with no teams at all, a single orphan remains unassigned
and the (empty) team list is unchanged. -/
theorem C7_phase4_tiered_reassignment_witness :
    reassign_orphans exampleScorer {}
      [⟨"o1", "o", "O", "Team Member", {}⟩] [] = ([], [⟨"o1", "o", "O", "Team Member", {}⟩]) := by
  have h := C7_phase4_tiered_reassignment exampleScorer {}
  rw [h.2.2.1 ⟨"o1", "o", "O", "Team Member", {}⟩ [] [] rfl, h.1]

end Betterment
namespace Betterment

/-! ### Whole-pipeline invariants (C1, C3, C4) -/

/-- All members across a team list, in order. -/
def teamsMembers (ts : List Team) : List TeamMember :=
  (ts.map Team.memberList).flatten

/-- A team dict whose keys are its members' user ids (true of every dict the
pipeline builds). -/
def KeysOk (t : Team) : Prop := ∀ p ∈ t.members, p.1 = p.2.user_id

theorem uid_injOn (ms : List TeamMember) (hnd : (ms.map TeamMember.user_id).Nodup) :
    ∀ x ∈ ms, ∀ y ∈ ms, x.user_id = y.user_id → x = y := by
  induction ms with
  | nil => intro x hx; simp at hx
  | cons m rest ih =>
      simp only [List.map_cons, List.nodup_cons] at hnd
      intro x hx y hy hxy
      rcases List.mem_cons.mp hx with hx | hx <;> rcases List.mem_cons.mp hy with hy | hy
      · rw [hx, hy]
      · exact absurd (by rw [← hx, hxy]; exact List.mem_map_of_mem _ hy) hnd.1
      · exact absurd (by rw [← hy, ← hxy]; exact List.mem_map_of_mem _ hx) hnd.1
      · exact ih hnd.2 x hx y hy hxy

theorem sublist_joinList {d : List (String × List TeamMember)}
    {kv : String × List TeamMember} (h : kv ∈ d) :
    kv.2.Sublist ((d.map (fun p => p.2)).flatten) := by
  induction d with
  | nil => simp at h
  | cons q rest ih =>
      rcases List.mem_cons.mp h with h | h
      · subst h
        simp only [List.map_cons, List.flatten_cons]
        exact (List.sublist_append_left _ _)
      · simp only [List.map_cons, List.flatten_cons]
        exact (ih h).trans (List.sublist_append_right _ _)

theorem sublist_teamsMembers {ts : List Team} {t : Team} (h : t ∈ ts) :
    t.memberList.Sublist (teamsMembers ts) := by
  induction ts with
  | nil => simp at h
  | cons q rest ih =>
      rcases List.mem_cons.mp h with h | h
      · subst h
        simp only [teamsMembers, List.map_cons, List.flatten_cons]
        exact (List.sublist_append_left _ _)
      · simp only [teamsMembers, List.map_cons, List.flatten_cons]
        exact (ih h).trans (List.sublist_append_right _ _)

theorem flatten_map_singleton {α : Type} (key : α → String) (xs : List α) :
    (((xs.map (fun x => (key x, [x]))).map (fun p => p.2)).flatten) = xs := by
  induction xs with
  | nil => rfl
  | cons x rest ih =>
      simp only [List.map_cons, List.flatten_cons, List.singleton_append]
      rw [ih]

theorem phase2_fold_conserves (sc : Scorer) (cfg : FormationConfig)
    (leaders : List TeamMember) (hl : leaders ≠ [])
    (hnd : (leaders.map TeamMember.user_id).Nodup) :
    ∀ (pool : List TeamMember) (st : List (String × List TeamMember) × List TeamMember),
      List.Perm
        ((((pool.foldl (phase2Step sc cfg leaders (phase2LeaderCats sc leaders)) st).1.map
            (fun p => p.2)).flatten) ++
          (pool.foldl (phase2Step sc cfg leaders (phase2LeaderCats sc leaders)) st).2)
        (((st.1.map (fun p => p.2)).flatten ++ st.2) ++ pool) := by
  intro pool
  induction pool with
  | nil => intro st; simp
  | cons mem rest ih =>
      intro st
      simp only [List.foldl_cons]
      have hscore : phase2LeaderScores sc leaders (phase2LeaderCats sc leaders) mem ≠ [] := by
        rw [phase2LeaderScores_eq sc leaders mem hnd]
        cases leaders with
        | nil => exact absurd rfl hl
        | cons l ls => simp [phase2Scores]
      obtain ⟨r, hr⟩ := firstMaxBy_isSome (fun a b => decide (a > b))
        (fun p : String × Rat => p.2) _ hscore
      have hstep : phase2Step sc cfg leaders (phase2LeaderCats sc leaders) st mem =
          (if cfg.minCategoryScoreThreshold ≤ r.2 then (appendToKey r.1 mem st.1, st.2)
           else (st.1, st.2 ++ [mem])) := by
        unfold phase2Step
        rw [hr]
      rw [hstep]
      by_cases hacc : cfg.minCategoryScoreThreshold ≤ r.2
      · rw [if_pos hacc]
        refine (ih _).trans ?_
        have happ := appendToKey_flatten_perm r.1 mem st.1
        refine ((happ.append_right st.2).append_right rest).trans ?_
        have heq : ((mem :: (st.1.map (fun p => p.2)).flatten) ++ st.2) ++ rest =
            mem :: (((st.1.map (fun p => p.2)).flatten ++ st.2) ++ rest) := by simp
        rw [heq]
        exact List.perm_middle.symm
      · rw [if_neg hacc]
        refine (ih _).trans ?_
        have heq : (((st.1.map (fun p => p.2)).flatten ++ (st.2 ++ [mem])) ++ rest) =
            ((st.1.map (fun p => p.2)).flatten ++ st.2) ++ (mem :: rest) := by simp
        rw [heq]

theorem phase2MkTeam_memberList (l : List TeamMember)
    (hnd : (l.map TeamMember.user_id).Nodup) : (phase2MkTeam l).memberList = l := by
  show (dictOfMembers l).map (fun p => p.2) = l
  rw [dictOfMembers_eq_map l hnd, List.map_map]
  simp [Function.comp_def]

theorem dictInsert_pred {α : Type} (P : String × α → Prop) (k : String) (v : α)
    (d : List (String × α)) (hd : ∀ p ∈ d, P p) (hkv : P (k, v)) :
    ∀ p ∈ dictInsert k v d, P p := by
  induction d with
  | nil =>
      intro p hp
      have hpe : p = (k, v) := by simpa [dictInsert] using hp
      exact hpe ▸ hkv
  | cons q rest ih =>
      intro p hp
      obtain ⟨k', v'⟩ := q
      by_cases h : k' = k
      · simp only [dictInsert, if_pos h] at hp
        rcases List.mem_cons.mp hp with h' | h'
        · exact h' ▸ hkv
        · exact hd p (List.mem_cons.mpr (Or.inr h'))
      · simp only [dictInsert, if_neg h] at hp
        rcases List.mem_cons.mp hp with h' | h'
        · exact hd p (h' ▸ List.mem_cons.mpr (Or.inl rfl))
        · exact ih (fun q hq => hd q (List.mem_cons.mpr (Or.inr hq))) p h'

theorem dictOfMembers_keysOk (ms : List TeamMember) :
    ∀ p ∈ dictOfMembers ms, p.1 = p.2.user_id := by
  suffices h : ∀ (ms : List TeamMember) (acc : List (String × TeamMember)),
      (∀ p ∈ acc, p.1 = p.2.user_id) →
      ∀ p ∈ ms.foldl (fun d m => dictInsert m.user_id m d) acc, p.1 = p.2.user_id by
    exact h ms [] (by simp)
  intro ms
  induction ms with
  | nil => intro acc hacc; simpa using hacc
  | cons m rest ih =>
      intro acc hacc
      simp only [List.foldl_cons]
      exact ih _ (dictInsert_pred _ _ _ _ hacc rfl)

theorem processGroup_conserves (sc : Scorer) (cfg : FormationConfig)
    (members : List TeamMember) (hnd : (members.map TeamMember.user_id).Nodup) :
    List.Perm (teamsMembers (processGroup sc cfg members).1 ++ (processGroup sc cfg members).2)
      members := by
  by_cases h : members.filter (fun m => m.is_leader) = []
  · rw [(processGroup_spec sc cfg members hnd).1 h]
    simp [teamsMembers]
  · have hndl : ((members.filter (fun m => m.is_leader)).map TeamMember.user_id).Nodup :=
      ((List.filter_sublist members).map TeamMember.user_id).nodup hnd
    have hinit : (members.filter (fun m => m.is_leader)).foldl
        (fun d l => dictInsert l.user_id [l] d) [] =
        (members.filter (fun m => m.is_leader)).map (fun l => (l.user_id, [l])) :=
      foldl_dictInsert_eq_map TeamMember.user_id (fun l => [l]) _ hndl
    have hfold := phase2_fold_conserves sc cfg _ h hndl
      (members.filter (fun m => !m.is_leader))
      ((members.filter (fun m => m.is_leader)).foldl (fun d l => dictInsert l.user_id [l] d) [],
       [])
    rw [hinit] at hfold
    rw [flatten_map_singleton TeamMember.user_id] at hfold
    simp only [List.append_nil] at hfold
    have hall : List.Perm
        ((members.filter (fun m => m.is_leader)) ++ members.filter (fun m => !m.is_leader))
        members := List.filter_append_perm _ _
    have hR := hfold.trans hall
    have hpg : processGroup sc cfg members =
        (((members.filter (fun m => !m.is_leader)).foldl
            (phase2Step sc cfg (members.filter (fun m => m.is_leader))
              (phase2LeaderCats sc (members.filter (fun m => m.is_leader))))
            ((members.filter (fun m => m.is_leader)).foldl
              (fun d l => dictInsert l.user_id [l] d) [], [])).1.map
          (fun kv => phase2MkTeam kv.2),
         ((members.filter (fun m => !m.is_leader)).foldl
            (phase2Step sc cfg (members.filter (fun m => m.is_leader))
              (phase2LeaderCats sc (members.filter (fun m => m.is_leader))))
            ((members.filter (fun m => m.is_leader)).foldl
              (fun d l => dictInsert l.user_id [l] d) [], [])).2) := by
      unfold processGroup
      rw [if_neg h]
    rw [hpg]
    rw [hinit] at hpg ⊢
    set R := ((members.filter (fun m => !m.is_leader)).foldl
        (phase2Step sc cfg (members.filter (fun m => m.is_leader))
          (phase2LeaderCats sc (members.filter (fun m => m.is_leader))))
        ((members.filter (fun m => m.is_leader)).map (fun l => (l.user_id, [l])), []))
      with hRdef
    have hnodupR : (((R.1.map (fun p => p.2)).flatten ++ R.2).map TeamMember.user_id).Nodup :=
      ((hR.map TeamMember.user_id).nodup_iff).mpr hnd
    have hteams : teamsMembers (R.1.map (fun kv => phase2MkTeam kv.2)) =
        (R.1.map (fun p => p.2)).flatten := by
      unfold teamsMembers
      rw [List.map_map]
      congr 1
      apply List.map_congr_left
      intro kv hkv
      show (phase2MkTeam kv.2).memberList = kv.2
      have hsubl : kv.2.Sublist ((R.1.map (fun p => p.2)).flatten ++ R.2) :=
        (sublist_joinList hkv).trans (List.sublist_append_left _ _)
      exact phase2MkTeam_memberList kv.2
        ((hsubl.map TeamMember.user_id).nodup hnodupR)
    rw [hteams]
    exact hR

theorem processGroup_team_facts (sc : Scorer) (cfg : FormationConfig)
    (members : List TeamMember) (hnd : (members.map TeamMember.user_id).Nodup) :
    ∀ t ∈ (processGroup sc cfg members).1,
      t.get_leader_count = 1 ∧ KeysOk t ∧ (t.memberList.map TeamMember.user_id).Nodup := by
  intro t ht
  by_cases h : members.filter (fun m => m.is_leader) = []
  · rw [(processGroup_spec sc cfg members hnd).1 h] at ht
    simp at ht
  · rw [(processGroup_spec sc cfg members hnd).2 h] at ht
    obtain ⟨l, hl, hteq⟩ := List.mem_map.mp ht
    have hlmem : l ∈ members := List.mem_of_mem_filter hl
    have hllead : l.is_leader = true := by simpa using (List.mem_filter.mp hl).2
    have hA : ∀ a ∈ phase2AssignedTo sc cfg (members.filter (fun m => m.is_leader))
        (members.filter (fun m => !m.is_leader)) l,
        a ∈ members ∧ a.is_leader = false := by
      intro a ha
      have ha' : a ∈ members.filter (fun m => !m.is_leader) :=
        List.mem_of_mem_filter ha
      exact ⟨List.mem_of_mem_filter ha', by simpa using (List.mem_filter.mp ha').2⟩
    have hndla : ((l :: phase2AssignedTo sc cfg (members.filter (fun m => m.is_leader))
        (members.filter (fun m => !m.is_leader)) l).map TeamMember.user_id).Nodup := by
      simp only [List.map_cons, List.nodup_cons]
      constructor
      · intro hcon
        obtain ⟨a, ha, hae⟩ := List.mem_map.mp hcon
        have := uid_injOn members hnd a (hA a ha).1 l hlmem hae
        rw [this] at ha
        exact absurd hllead (by simpa using (hA l ha).2)
      · have hsub : (phase2AssignedTo sc cfg (members.filter (fun m => m.is_leader))
            (members.filter (fun m => !m.is_leader)) l).Sublist members :=
          (List.filter_sublist _).trans (List.filter_sublist _)
        exact (hsub.map TeamMember.user_id).nodup hnd
    have hml : t.memberList = l :: phase2AssignedTo sc cfg
        (members.filter (fun m => m.is_leader))
        (members.filter (fun m => !m.is_leader)) l := by
      rw [← hteq]
      exact phase2MkTeam_memberList _ hndla
    refine ⟨?_, ?_, ?_⟩
    · show (t.memberList.filter (fun m => m.is_leader)).length = 1
      rw [hml]
      rw [List.filter_cons_of_pos (by simpa using hllead)]
      rw [List.filter_eq_nil_iff.mpr (fun a ha => by simp [(hA a ha).2])]
      rfl
    · intro p hp
      rw [← hteq] at hp
      exact dictOfMembers_keysOk _ p hp
    · rw [hml]
      exact hndla

theorem perm_four_swap {α : Type} (p q r s : List α) :
    List.Perm ((p ++ q) ++ (r ++ s)) ((p ++ r) ++ (q ++ s)) := by
  have hpl : (p ++ q) ++ (r ++ s) = p ++ (q ++ (r ++ s)) := by
    rw [List.append_assoc]
  have hpr : (p ++ r) ++ (q ++ s) = p ++ (r ++ (q ++ s)) := by
    rw [List.append_assoc]
  rw [hpl, hpr]
  refine List.Perm.append_left p ?_
  have hsw : List.Perm (q ++ (r ++ s)) ((r ++ s) ++ q) := List.perm_append_comm
  refine hsw.trans ?_
  rw [List.append_assoc]
  refine List.Perm.append_left r ?_
  exact List.perm_append_comm

theorem cluster_by_category_eq (sc : Scorer) (cfg : FormationConfig)
    (clusters : List (Option Rat × List TeamMember)) :
    cluster_by_category sc cfg clusters =
      ((clusters.map (fun g => (processGroup sc cfg g.2).1)).flatten,
       (clusters.map (fun g => (processGroup sc cfg g.2).2)).flatten) := by
  suffices h : ∀ (cls : List (Option Rat × List TeamMember)) (acc : List Team × List TeamMember),
      cls.foldl (fun acc grp =>
        let r := processGroup sc cfg grp.2
        (acc.1 ++ r.1, acc.2 ++ r.2)) acc =
      (acc.1 ++ (cls.map (fun g => (processGroup sc cfg g.2).1)).flatten,
       acc.2 ++ (cls.map (fun g => (processGroup sc cfg g.2).2)).flatten) by
    have := h clusters ([], [])
    simpa [cluster_by_category] using this
  intro cls
  induction cls with
  | nil => intro acc; simp
  | cons g rest ih =>
      intro acc
      simp only [List.foldl_cons, ih, List.map_cons, List.flatten_cons]
      simp [List.append_assoc]

theorem teamsMembers_append (ts1 ts2 : List Team) :
    teamsMembers (ts1 ++ ts2) = teamsMembers ts1 ++ teamsMembers ts2 := by
  simp [teamsMembers]

/-- Conservation and per-team facts after Phases 1–2. -/
theorem phase2_all (sc : Scorer) (cfg : FormationConfig) (all_members : List TeamMember)
    (hnd : (all_members.map TeamMember.user_id).Nodup) :
    List.Perm
      (teamsMembers (cluster_by_category sc cfg (cluster_by_timezone all_members)).1 ++
        (cluster_by_category sc cfg (cluster_by_timezone all_members)).2)
      all_members ∧
    (∀ t ∈ (cluster_by_category sc cfg (cluster_by_timezone all_members)).1,
       t.get_leader_count = 1 ∧ KeysOk t ∧ (t.memberList.map TeamMember.user_id).Nodup) := by
  have hflat := cluster_by_timezone_perm all_members
  have hgroup_nodup : ∀ g ∈ cluster_by_timezone all_members,
      (g.2.map TeamMember.user_id).Nodup := by
    intro g hg
    have hsub : g.2.Sublist ((cluster_by_timezone all_members).map (fun p => p.2)).flatten := by
      have : g.2 ∈ (cluster_by_timezone all_members).map (fun p => p.2) :=
        List.mem_map_of_mem _ hg
      exact List.sublist_flatten_of_mem this
    have hfn : (((cluster_by_timezone all_members).map (fun p => p.2)).flatten.map
        TeamMember.user_id).Nodup := ((hflat.map TeamMember.user_id).nodup_iff).mpr hnd
    exact (hsub.map TeamMember.user_id).nodup hfn
  rw [cluster_by_category_eq]
  constructor
  · have main : ∀ (cls : List (Option Rat × List TeamMember)),
        (∀ g ∈ cls, (g.2.map TeamMember.user_id).Nodup) →
        List.Perm
          (teamsMembers ((cls.map (fun g => (processGroup sc cfg g.2).1)).flatten) ++
            ((cls.map (fun g => (processGroup sc cfg g.2).2)).flatten))
          ((cls.map (fun p => p.2)).flatten) := by
      intro cls
      induction cls with
      | nil => intro _; simp [teamsMembers]
      | cons g rest ih =>
          intro hcls
          simp only [List.map_cons, List.flatten_cons, teamsMembers_append]
          refine (perm_four_swap _ _ _ _).trans ?_
          refine List.Perm.append ?_ (ih (fun g' hg' => hcls g' (by simp [hg'])))
          exact processGroup_conserves sc cfg g.2 (hcls g (by simp))
    exact (main _ hgroup_nodup).trans hflat
  · intro t ht
    simp only at ht
    obtain ⟨l1, hl1, hl2⟩ := List.mem_flatten.mp ht
    obtain ⟨g, hg, hgeq⟩ := List.mem_map.mp hl1
    exact processGroup_team_facts sc cfg g.2 (hgroup_nodup g hg) t (hgeq ▸ hl2)

theorem teamsMembers_cons (t : Team) (ts : List Team) :
    teamsMembers (t :: ts) = t.memberList ++ teamsMembers ts := by
  simp [teamsMembers]

/-- Conservation through Phase 3a: kept members plus evicted orphans are a
permutation of the original team roster. -/
theorem optimize_conserves (sc : Scorer) (cfg : FormationConfig) (team : Team)
    (hnd : (team.memberList.map TeamMember.user_id).Nodup) :
    List.Perm
      ((optimize_oversized_team sc cfg team).1.memberList ++
        (optimize_oversized_team sc cfg team).2)
      team.memberList := by
  obtain ⟨hperm, _⟩ := C6_setup sc team hnd
  rw [C6_kept_eq sc cfg team hnd]
  have h1 : team.memberList.filter (fun m => m.is_leader) ++
      pyTake (optSlots cfg team) (optSorted sc team) ++
      (optimize_oversized_team sc cfg team).2 =
      team.memberList.filter (fun m => m.is_leader) ++ optSorted sc team := by
    rw [optimize_eq, List.append_assoc, pyTake_append_pyDrop]
  rw [h1]
  exact hperm

/-- Phase 3a preserves the leader multiset exactly: the kept roster's leaders
are the original roster's leaders. -/
theorem optimize_leaders (sc : Scorer) (cfg : FormationConfig) (team : Team)
    (hnd : (team.memberList.map TeamMember.user_id).Nodup) :
    (optimize_oversized_team sc cfg team).1.memberList.filter (fun m => m.is_leader) =
      team.memberList.filter (fun m => m.is_leader) := by
  rw [C6_kept_eq sc cfg team hnd, List.filter_append]
  have h2 : (pyTake (optSlots cfg team) (optSorted sc team)).filter (fun m => m.is_leader) = [] := by
    refine List.filter_eq_nil_iff.mpr ?_
    intro m hm
    have hm2 : m ∈ optSorted sc team := (pyTake_sublist _ _).subset hm
    have hm3 : m ∈ team.memberList.filter (fun m => !m.is_leader) :=
      (sortDescBy_perm _ _).subset hm2
    simpa using (List.of_mem_filter hm3)
  rw [h2, List.filter_filter]
  simp [List.append_nil]

theorem optimize_size_le (sc : Scorer) (cfg : FormationConfig) (team : Team)
    (hnd : (team.memberList.map TeamMember.user_id).Nodup)
    (hL : (team.memberList.filter (fun m => m.is_leader)).length ≤ cfg.maxTeamSize) :
    (optimize_oversized_team sc cfg team).1.members.length ≤ cfg.maxTeamSize := by
  have hlen : (optimize_oversized_team sc cfg team).1.members.length =
      (optimize_oversized_team sc cfg team).1.memberList.length := by
    simp [Team.memberList]
  rw [hlen, C6_kept_eq sc cfg team hnd, List.length_append]
  have hk : 0 ≤ optSlots cfg team := by
    unfold optSlots; omega
  rw [pyTake_nonneg _ hk]
  have := List.length_take_le (optSlots cfg team).toNat (optSorted sc team)
  have hts : (optSlots cfg team).toNat =
      cfg.maxTeamSize - (team.memberList.filter (fun m => m.is_leader)).length := by
    unfold optSlots; omega
  omega

theorem optimize_keysOk (sc : Scorer) (cfg : FormationConfig) (team : Team) :
    KeysOk (optimize_oversized_team sc cfg team).1 := by
  rw [optimize_eq]
  intro p hp
  exact dictOfMembers_keysOk _ p hp

theorem optimize_nodup (sc : Scorer) (cfg : FormationConfig) (team : Team)
    (hnd : (team.memberList.map TeamMember.user_id).Nodup) :
    ((optimize_oversized_team sc cfg team).1.memberList.map TeamMember.user_id).Nodup := by
  obtain ⟨_, hndk⟩ := C6_setup sc team hnd
  rw [C6_kept_eq sc cfg team hnd]
  refine List.Sublist.nodup (List.Sublist.map TeamMember.user_id ?_) hndk
  exact (pyTake_sublist _ _).append_left _

/-- The Phase 3 fold of `form_teams_full` in closed form. -/
theorem phase3_fold_eq (sc : Scorer) (cfg : FormationConfig) (proposed : List Team) :
    proposed.foldl (fun (st : List Team × List TeamMember) t =>
        if cfg.maxTeamSize < t.members.length then
          let r := optimize_oversized_team sc cfg t
          (st.1 ++ [r.1], st.2 ++ r.2)
        else (st.1 ++ [t], st.2)) ([], []) =
      (proposed.map (fun t => if cfg.maxTeamSize < t.members.length then
          (optimize_oversized_team sc cfg t).1 else t),
       (proposed.map (fun t => if cfg.maxTeamSize < t.members.length then
          (optimize_oversized_team sc cfg t).2 else [])).flatten) := by
  suffices h : ∀ (ts : List Team) (acc : List Team × List TeamMember),
      ts.foldl (fun (st : List Team × List TeamMember) t =>
        if cfg.maxTeamSize < t.members.length then
          let r := optimize_oversized_team sc cfg t
          (st.1 ++ [r.1], st.2 ++ r.2)
        else (st.1 ++ [t], st.2)) acc =
      (acc.1 ++ ts.map (fun t => if cfg.maxTeamSize < t.members.length then
          (optimize_oversized_team sc cfg t).1 else t),
       acc.2 ++ (ts.map (fun t => if cfg.maxTeamSize < t.members.length then
          (optimize_oversized_team sc cfg t).2 else [])).flatten) by
    have := h proposed ([], [])
    simpa using this
  intro ts
  induction ts with
  | nil => intro acc; simp
  | cons t rest ih =>
      intro acc
      simp only [List.foldl_cons]
      by_cases hc : cfg.maxTeamSize < t.members.length
      · rw [if_pos hc, ih]
        simp [if_pos hc, List.append_assoc]
      · rw [if_neg hc, ih]
        simp [if_neg hc, List.append_assoc]

/-- Conservation and per-team facts through Phase 3, given the Phase-2 facts
about the proposed teams. -/
theorem phase3_all (sc : Scorer) (cfg : FormationConfig) (proposed : List Team)
    (hfacts : ∀ t ∈ proposed,
      t.get_leader_count = 1 ∧ KeysOk t ∧ (t.memberList.map TeamMember.user_id).Nodup) :
    List.Perm
      (teamsMembers (proposed.map (fun t => if cfg.maxTeamSize < t.members.length then
          (optimize_oversized_team sc cfg t).1 else t)) ++
        (proposed.map (fun t => if cfg.maxTeamSize < t.members.length then
          (optimize_oversized_team sc cfg t).2 else [])).flatten)
      (teamsMembers proposed) ∧
    (∀ t ∈ proposed.map (fun t => if cfg.maxTeamSize < t.members.length then
          (optimize_oversized_team sc cfg t).1 else t),
       (1 ≤ cfg.maxTeamSize → t.members.length ≤ cfg.maxTeamSize) ∧
       1 ≤ t.get_leader_count ∧ KeysOk t ∧
       (t.memberList.map TeamMember.user_id).Nodup) := by
  constructor
  · induction proposed with
    | nil => simp [teamsMembers]
    | cons t rest ih =>
        have hfr : ∀ u ∈ rest, u.get_leader_count = 1 ∧ KeysOk u ∧
            (u.memberList.map TeamMember.user_id).Nodup :=
          fun u hu => hfacts u (by simp [hu])
        obtain ⟨_, _, hndt⟩ := hfacts t (by simp)
        simp only [List.map_cons, List.flatten_cons, teamsMembers_cons]
        by_cases hc : cfg.maxTeamSize < t.members.length
        · simp only [if_pos hc]
          refine (perm_four_swap _ _ _ _).trans ?_
          exact List.Perm.append (optimize_conserves sc cfg t hndt) (ih hfr)
        · simp only [if_neg hc]
          rw [List.append_assoc]
          exact List.Perm.append_left _ (ih hfr)
  · intro t' ht'
    obtain ⟨t, ht, hteq⟩ := List.mem_map.mp ht'
    obtain ⟨hlc, hko, hndt⟩ := hfacts t ht
    by_cases hc : cfg.maxTeamSize < t.members.length
    · rw [if_pos hc] at hteq
      subst hteq
      have hL : (t.memberList.filter (fun m => m.is_leader)).length = 1 := hlc
      refine ⟨?_, ?_, optimize_keysOk sc cfg t, optimize_nodup sc cfg t hndt⟩
      · intro hmax
        exact optimize_size_le sc cfg t hndt (by omega)
      · show 1 ≤ ((optimize_oversized_team sc cfg t).1.memberList.filter
          (fun m => m.is_leader)).length
        rw [optimize_leaders sc cfg t hndt, hL]
    · rw [if_neg hc] at hteq
      subst hteq
      exact ⟨fun _ => by omega, by omega, hko, hndt⟩

theorem teamsMembers_set_append (teams : List Team) (i : Nat) (t' : Team)
    (extra : List TeamMember) (hi : i < teams.length)
    (hml : t'.memberList = (teams.getD i default).memberList ++ extra) :
    List.Perm (teamsMembers (teams.set i t')) (teamsMembers teams ++ extra) := by
  induction teams generalizing i with
  | nil => exact absurd hi (by simp)
  | cons t ts ih =>
      cases i with
      | zero =>
          simp only [List.set_cons_zero, teamsMembers_cons]
          rw [List.getD_cons_zero] at hml
          rw [hml, List.append_assoc, List.append_assoc]
          exact List.Perm.append_left _ (List.perm_append_comm)
      | succ j =>
          simp only [List.set_cons_succ, teamsMembers_cons]
          rw [List.getD_cons_succ] at hml
          have hj : j < ts.length := by simpa using hi
          rw [List.append_assoc]
          exact List.Perm.append_left _ (ih j hj hml)

theorem placeOrphan_eq (teams : List Team) (i : Nat) (o : TeamMember)
    (hfresh : ∀ p ∈ (teams.getD i default).members, p.1 ≠ o.user_id) :
    placeOrphan teams i o =
      teams.set i { teams.getD i default with
        members := (teams.getD i default).members ++ [(o.user_id, o)] } := by
  simp only [placeOrphan]
  rw [dictInsert_eq_append _ _ _ hfresh]

/-- The Phase-4 recursion invariant: conservation of the member pool, key
consistency of the team dicts, and preservation of any per-team property
stable under inserting one member into a team that is below capacity and has
a leader. -/
theorem reassign_invariant (sc : Scorer) (cfg : FormationConfig)
    (orphans : List TeamMember) :
    ∀ (teams : List Team),
      ((teamsMembers teams ++ orphans).map TeamMember.user_id).Nodup →
      (∀ t ∈ teams, KeysOk t) →
      List.Perm
        (teamsMembers (reassign_orphans sc cfg orphans teams).1 ++
          (reassign_orphans sc cfg orphans teams).2)
        (teamsMembers teams ++ orphans) ∧
      (∀ t ∈ (reassign_orphans sc cfg orphans teams).1, KeysOk t) ∧
      (∀ (P : Team → Prop),
        (∀ (t : Team) (o' : TeamMember), t.members.length < cfg.maxTeamSize →
          t.get_leaders ≠ [] → P t →
          P { t with members := t.members ++ [(o'.user_id, o')] }) →
        (∀ t ∈ teams, P t) →
        ∀ t ∈ (reassign_orphans sc cfg orphans teams).1, P t) := by
  induction orphans with
  | nil =>
      intro teams hnd hko
      refine ⟨by simp [reassign_orphans], ?_, ?_⟩
      · intro t ht
        exact hko t (by simpa [reassign_orphans] using ht)
      · intro P _ hPt t ht
        exact hPt t (by simpa [reassign_orphans] using ht)
  | cons o os ih =>
      intro teams hnd hko
      cases hch : chooseTeam cfg (candidatesFor sc cfg teams o) with
      | none =>
          have hre : reassign_orphans sc cfg (o :: os) teams =
              ((reassign_orphans sc cfg os teams).1,
                o :: (reassign_orphans sc cfg os teams).2) := by
            simp only [reassign_orphans, hch]
          have hsub : (teamsMembers teams ++ os).Sublist
              (teamsMembers teams ++ o :: os) :=
            List.Sublist.append_left (List.sublist_cons_self o os) _
          have hnd' : ((teamsMembers teams ++ os).map TeamMember.user_id).Nodup :=
            (hsub.map TeamMember.user_id).nodup hnd
          obtain ⟨ihp, ihk, ihP⟩ := ih teams hnd' hko
          rw [hre]
          refine ⟨?_, ihk, ?_⟩
          · refine List.Perm.trans ?_ ((ihp.cons o).trans List.perm_middle.symm)
            exact List.perm_middle
          · intro P hstep hPt
            exact ihP P hstep hPt
      | some i =>
          have hcne : candidatesFor sc cfg teams o ≠ [] := by
            intro hnil
            rw [hnil] at hch
            simp [chooseTeam] at hch
          obtain ⟨c, hc, hcho, _⟩ := chooseTeam_spec cfg _ hcne
          have hieq : i = c.team_idx := by
            rw [hch] at hcho
            exact (Option.some.injEq _ _).mp hcho.symm |>.symm
          obtain ⟨hi, hlen, hleaders, _, _, _⟩ := candidatesFor_mem sc cfg teams o c hc
          rw [← hieq] at hi hlen hleaders
          have hmemi : teams.getD i default ∈ teams := by
            rw [List.getD_eq_getElem teams default hi]
            exact List.getElem_mem hi
          have hsubml : (teams.getD i default).memberList.Sublist (teamsMembers teams) := by
            have : (teams.getD i default).memberList ∈ teams.map Team.memberList :=
              List.mem_map_of_mem _ hmemi
            exact List.sublist_flatten_of_mem this
          have hdisj : List.Disjoint
              ((teamsMembers teams).map TeamMember.user_id)
              ((o :: os).map TeamMember.user_id) := by
            rw [List.map_append] at hnd
            exact List.disjoint_of_nodup_append hnd
          have hfresh : ∀ p ∈ (teams.getD i default).members, p.1 ≠ o.user_id := by
            intro p hp heq
            have hkk := hko _ hmemi p hp
            have hpm : p.2 ∈ (teams.getD i default).memberList :=
              List.mem_map_of_mem _ hp
            have h1 : p.2.user_id ∈ (teamsMembers teams).map TeamMember.user_id :=
              List.mem_map_of_mem _ (hsubml.subset hpm)
            have h2 : o.user_id ∈ (o :: os).map TeamMember.user_id := by simp
            have h3 : p.2.user_id = o.user_id := by rw [← hkk, heq]
            exact hdisj h1 (h3 ▸ h2)
          have hpeq := placeOrphan_eq teams i o hfresh
          have hre : reassign_orphans sc cfg (o :: os) teams =
              reassign_orphans sc cfg os (placeOrphan teams i o) := by
            simp only [reassign_orphans, hch]
          have hmlnew : (Team.memberList { teams.getD i default with
              members := (teams.getD i default).members ++ [(o.user_id, o)] }) =
              (teams.getD i default).memberList ++ [o] := by
            simp [Team.memberList]
          have hset : List.Perm (teamsMembers (placeOrphan teams i o))
              (teamsMembers teams ++ [o]) := by
            rw [hpeq]
            exact teamsMembers_set_append teams i _ [o] hi hmlnew
          have hstep2 : List.Perm (teamsMembers (placeOrphan teams i o) ++ os)
              (teamsMembers teams ++ (o :: os)) := by
            have h := hset.append_right os
            rwa [List.append_assoc, List.singleton_append] at h
          have hnd' : ((teamsMembers (placeOrphan teams i o) ++ os).map
              TeamMember.user_id).Nodup :=
            ((hstep2.map TeamMember.user_id).nodup_iff).mpr hnd
          have hko' : ∀ t ∈ placeOrphan teams i o, KeysOk t := by
            rw [hpeq]
            intro t ht
            rcases List.mem_or_eq_of_mem_set ht with hmem | heqt
            · exact hko t hmem
            · subst heqt
              intro p hp
              rcases List.mem_append.mp hp with hold | hnew
              · exact hko _ hmemi p hold
              · simp at hnew
                simp [hnew]
          obtain ⟨ihp, ihk, ihP⟩ := ih (placeOrphan teams i o) hnd' hko'
          rw [hre]
          refine ⟨ihp.trans hstep2, ihk, ?_⟩
          · intro P hstep hPt
            refine ihP P hstep ?_
            rw [hpeq]
            intro t ht
            rcases List.mem_or_eq_of_mem_set ht with hmem | heqt
            · exact hPt t hmem
            · subst heqt
              exact hstep _ o hlen hleaders (hPt _ hmemi)

/-! ### The full formation pipeline (C1, C2, C3, C4) -/

/-- The member pool built by the intake loop. -/
def fMembers (uls ums : List ProfileDict) : List TeamMember :=
  (uls ++ ums).filterMap toTeamMember?

/-- The intake loop keeps exactly the `user_id`s present in the input
profiles, in order. -/
theorem fMembers_uids (uls ums : List ProfileDict) :
    (fMembers uls ums).map TeamMember.user_id =
      (uls ++ ums).filterMap ProfileDict.user_id := by
  rw [fMembers, List.map_filterMap]
  refine List.filterMap_congr ?_
  intro p _
  cases hp : p.user_id <;> simp [toTeamMember?, hp]

/-- Phases 1–2 of `form_teams_hierarchical`. -/
def fP2 (sc : Scorer) (cfg : FormationConfig) (uls ums : List ProfileDict) :
    List Team × List TeamMember :=
  cluster_by_category sc cfg (cluster_by_timezone (fMembers uls ums))

/-- The team list after Phase 3. -/
def fP3teams (sc : Scorer) (cfg : FormationConfig) (uls ums : List ProfileDict) :
    List Team :=
  (fP2 sc cfg uls ums).1.map (fun t => if cfg.maxTeamSize < t.members.length then
      (optimize_oversized_team sc cfg t).1 else t)

/-- The orphans produced by Phase 3. -/
def fP3orph (sc : Scorer) (cfg : FormationConfig) (uls ums : List ProfileDict) :
    List TeamMember :=
  ((fP2 sc cfg uls ums).1.map (fun t => if cfg.maxTeamSize < t.members.length then
      (optimize_oversized_team sc cfg t).2 else [])).flatten

/-- `all_orphans = phase2_orphans + phase3_orphans`. -/
def fOrphans (sc : Scorer) (cfg : FormationConfig) (uls ums : List ProfileDict) :
    List TeamMember :=
  (fP2 sc cfg uls ums).2 ++ fP3orph sc cfg uls ums

theorem form_teams_full_eq (sc : Scorer) (cfg : FormationConfig)
    (uls ums : List ProfileDict) :
    form_teams_full sc cfg uls ums =
      if fOrphans sc cfg uls ums = [] then (fP3teams sc cfg uls ums, [])
      else reassign_orphans sc cfg (fOrphans sc cfg uls ums)
        (fP3teams sc cfg uls ums) := by
  simp only [form_teams_full, phase3_fold_eq, fOrphans, fP3teams, fP3orph, fP2, fMembers]

/-- Master invariant of a full formation run: the kept-plus-orphaned pool is a
permutation of the intake pool, and every output team respects the capacity
bound, has a leader, and has a key-consistent member dict. -/
theorem form_teams_full_spec (sc : Scorer) (cfg : FormationConfig)
    (uls ums : List ProfileDict)
    (hnd : ((fMembers uls ums).map TeamMember.user_id).Nodup) :
    List.Perm
      (teamsMembers (form_teams_full sc cfg uls ums).1 ++
        (form_teams_full sc cfg uls ums).2)
      (fMembers uls ums) ∧
    (∀ t ∈ (form_teams_full sc cfg uls ums).1,
      (1 ≤ cfg.maxTeamSize → t.members.length ≤ cfg.maxTeamSize) ∧
      1 ≤ t.get_leader_count ∧ KeysOk t) := by
  obtain ⟨hp2perm, hp2facts⟩ := phase2_all sc cfg (fMembers uls ums) hnd
  obtain ⟨hp3perm, hp3facts⟩ :=
    phase3_all sc cfg (fP2 sc cfg uls ums).1 hp2facts
  have hp3perm' : List.Perm
      (teamsMembers (fP3teams sc cfg uls ums) ++ fP3orph sc cfg uls ums)
      (teamsMembers (fP2 sc cfg uls ums).1) := hp3perm
  have hp3facts' : ∀ t ∈ fP3teams sc cfg uls ums,
      (1 ≤ cfg.maxTeamSize → t.members.length ≤ cfg.maxTeamSize) ∧
      1 ≤ t.get_leader_count ∧ KeysOk t ∧
      (t.memberList.map TeamMember.user_id).Nodup := hp3facts
  have htot : List.Perm
      (teamsMembers (fP3teams sc cfg uls ums) ++ fOrphans sc cfg uls ums)
      (fMembers uls ums) := by
    rw [fOrphans]
    have h1 : List.Perm
        (teamsMembers (fP3teams sc cfg uls ums) ++
          ((fP2 sc cfg uls ums).2 ++ fP3orph sc cfg uls ums))
        ((teamsMembers (fP3teams sc cfg uls ums) ++ fP3orph sc cfg uls ums) ++
          (fP2 sc cfg uls ums).2) := by
      refine List.Perm.trans (List.Perm.append_left _ List.perm_append_comm) ?_
      rw [List.append_assoc]
    exact h1.trans ((hp3perm'.append_right _).trans hp2perm)
  rw [form_teams_full_eq]
  by_cases ho : fOrphans sc cfg uls ums = []
  · rw [if_pos ho]
    constructor
    · rw [ho] at htot
      simpa using htot
    · intro t ht
      obtain ⟨ha, hb, hc, _⟩ := hp3facts' t ht
      exact ⟨ha, hb, hc⟩
  · rw [if_neg ho]
    have hnd4 : ((teamsMembers (fP3teams sc cfg uls ums) ++
        fOrphans sc cfg uls ums).map TeamMember.user_id).Nodup :=
      ((htot.map TeamMember.user_id).nodup_iff).mpr hnd
    have hko4 : ∀ t ∈ fP3teams sc cfg uls ums, KeysOk t :=
      fun t ht => (hp3facts' t ht).2.2.1
    obtain ⟨hrp, hrk, hrP⟩ :=
      reassign_invariant sc cfg (fOrphans sc cfg uls ums)
        (fP3teams sc cfg uls ums) hnd4 hko4
    refine ⟨hrp.trans htot, ?_⟩
    intro t ht
    have hP := hrP (fun t => (1 ≤ cfg.maxTeamSize → t.members.length ≤ cfg.maxTeamSize) ∧
        1 ≤ t.get_leader_count) ?_ ?_ t ht
    · exact ⟨hP.1, hP.2, hrk t ht⟩
    · intro t' o' hlt _ hp'
      constructor
      · intro _
        simp only [List.length_append, List.length_cons, List.length_nil]
        omega
      · have hml : (Team.memberList { t' with
            members := t'.members ++ [(o'.user_id, o')] }) =
            t'.memberList ++ [o'] := by
          simp [Team.memberList]
        show 1 ≤ ((Team.memberList _).filter (fun m => m.is_leader)).length
        rw [hml, List.filter_append, List.length_append]
        have := hp'.2
        rw [Team.get_leader_count] at this
        omega
    · intro t' ht'
      obtain ⟨ha, hb, _, _⟩ := hp3facts' t' ht'
      exact ⟨ha, hb⟩

/-- A concrete intake pool: one leader, one plain member, one profile without
a `user_id` (which the intake loop skips). -/
def exLeaderPool : List ProfileDict :=
  [{ user_id := some "L1", role_title := "Team Leader" }]

/-- The member side of the concrete intake pool. -/
def exMemberPool : List ProfileDict :=
  [{ user_id := some "M1" }, { user_id := none, username := "ghost" }]

/-- **C1.** Conservation: over an input pool whose present `user_id`s are
pairwise distinct (profiles lacking a `user_id` being skipped), the multiset
of `user_id`s across all output teams plus the final still-unassigned orphan
list equals exactly the multiset of `user_id`s of the input profiles that
have one — no profile is duplicated into two teams and none is silently lost
by any of the four phases. -/
theorem C1_conservation (sc : Scorer) (cfg : FormationConfig)
    (uls ums : List ProfileDict)
    (hnd : ((uls ++ ums).filterMap ProfileDict.user_id).Nodup) :
    List.Perm
      ((teamsMembers (form_teams_full sc cfg uls ums).1 ++
        (form_teams_full sc cfg uls ums).2).map TeamMember.user_id)
      ((uls ++ ums).filterMap ProfileDict.user_id) := by
  have hnd' : ((fMembers uls ums).map TeamMember.user_id).Nodup := by
    rw [fMembers_uids]; exact hnd
  have h := ((form_teams_full_spec sc cfg uls ums hnd').1).map TeamMember.user_id
  rwa [fMembers_uids] at h

theorem C1_conservation_witness :
    ((exLeaderPool ++ exMemberPool).filterMap ProfileDict.user_id).Nodup ∧
    List.Perm
      ((teamsMembers (form_teams_full exampleScorer {} exLeaderPool exMemberPool).1 ++
        (form_teams_full exampleScorer {} exLeaderPool exMemberPool).2).map
          TeamMember.user_id)
      ((exLeaderPool ++ exMemberPool).filterMap ProfileDict.user_id) :=
  ⟨by decide, C1_conservation exampleScorer {} exLeaderPool exMemberPool (by decide)⟩

/-- **C2** (amended). `form_teams_hierarchical` hands back only the final
team list (`return final_teams`); the still-unassigned orphan list is
computed internally by Phase 4 (and only logged) but is not part of the
return value. -/
theorem C2_return_teams_only (sc : Scorer) (cfg : FormationConfig)
    (uls ums : List ProfileDict) :
    form_teams_hierarchical sc cfg uls ums =
      (form_teams_full sc cfg uls ums).1 := rfl

/-- A run on one leaderless member ends with that member still unassigned,
yet the function's return value is just the empty team list: the orphan list
is not returned to the caller, refuting the original reading of C2. -/
theorem C2_counterexample :
    form_teams_hierarchical exampleScorer {} [] [{ user_id := some "M1" }] = [] ∧
    (form_teams_full exampleScorer {} [] [{ user_id := some "M1" }]).2 =
      [{ user_id := "M1", role_title := "" }] := by
  constructor
  · decide
  · decide

/-- **C3.** Capacity invariant: every output team of a formation run has at
most `max_team_size` members; Phase 3 trims every team (in particular every
oversized Phase-2 team) to at most `max_team_size` members, and Phase 4 only
considers adding an orphan to a team whose current size is strictly below
`max_team_size`. -/
theorem C3_capacity (sc : Scorer) (cfg : FormationConfig)
    (uls ums : List ProfileDict)
    (hnd : ((uls ++ ums).filterMap ProfileDict.user_id).Nodup)
    (hmax : 1 ≤ cfg.maxTeamSize) :
    (∀ t ∈ form_teams_hierarchical sc cfg uls ums,
        t.members.length ≤ cfg.maxTeamSize) ∧
    (∀ team : Team, (team.memberList.map TeamMember.user_id).Nodup →
        team.get_leader_count ≤ cfg.maxTeamSize →
        (optimize_oversized_team sc cfg team).1.members.length ≤ cfg.maxTeamSize) ∧
    (∀ (teams : List Team) (o : TeamMember) (c : Candidate),
        c ∈ candidatesFor sc cfg teams o →
        (teams.getD c.team_idx default).members.length < cfg.maxTeamSize) := by
  have hnd' : ((fMembers uls ums).map TeamMember.user_id).Nodup := by
    rw [fMembers_uids]; exact hnd
  refine ⟨?_, ?_, ?_⟩
  · intro t ht
    exact (((form_teams_full_spec sc cfg uls ums hnd').2) t ht).1 hmax
  · intro team hndt hL
    exact optimize_size_le sc cfg team hndt hL
  · intro teams o c hc
    exact (candidatesFor_mem sc cfg teams o c hc).2.1

theorem C3_capacity_witness :
    (((exLeaderPool ++ exMemberPool).filterMap ProfileDict.user_id).Nodup ∧
      1 ≤ (({} : FormationConfig)).maxTeamSize) ∧
    (∀ t ∈ form_teams_hierarchical exampleScorer {} exLeaderPool exMemberPool,
        t.members.length ≤ (({} : FormationConfig)).maxTeamSize) :=
  ⟨⟨by decide, by decide⟩,
   (C3_capacity exampleScorer {} exLeaderPool exMemberPool (by decide) (by decide)).1⟩

/-- **C4.** Leader primacy: every team in the output of a formation run (in
particular every non-empty one) has `get_leader_count ≥ 1`; Phase 3 never
evicts a leader (the kept roster has exactly the original leaders), and
Phase 4 only considers adding members to teams whose leader list is
non-empty. -/
theorem C4_leader_primacy (sc : Scorer) (cfg : FormationConfig)
    (uls ums : List ProfileDict)
    (hnd : ((uls ++ ums).filterMap ProfileDict.user_id).Nodup) :
    (∀ t ∈ form_teams_hierarchical sc cfg uls ums, 1 ≤ t.get_leader_count) ∧
    (∀ team : Team, (team.memberList.map TeamMember.user_id).Nodup →
        (optimize_oversized_team sc cfg team).1.get_leaders = team.get_leaders) ∧
    (∀ (teams : List Team) (o : TeamMember) (c : Candidate),
        c ∈ candidatesFor sc cfg teams o →
        (teams.getD c.team_idx default).get_leaders ≠ []) := by
  have hnd' : ((fMembers uls ums).map TeamMember.user_id).Nodup := by
    rw [fMembers_uids]; exact hnd
  refine ⟨?_, ?_, ?_⟩
  · intro t ht
    exact (((form_teams_full_spec sc cfg uls ums hnd').2) t ht).2.1
  · intro team hndt
    exact optimize_leaders sc cfg team hndt
  · intro teams o c hc
    exact (candidatesFor_mem sc cfg teams o c hc).2.2.1

theorem C4_leader_primacy_witness :
    ((exLeaderPool ++ exMemberPool).filterMap ProfileDict.user_id).Nodup ∧
    (∀ t ∈ form_teams_hierarchical exampleScorer {} exLeaderPool exMemberPool,
        1 ≤ t.get_leader_count) :=
  ⟨by decide,
   (C4_leader_primacy exampleScorer {} exLeaderPool exMemberPool (by decide)).1⟩

end Betterment
